import Mathlib

/-!
Verification of the Brisbane Kids events scraper
(`brisbanekids-scraper.py`) against its design specification.

The script is embedded shallowly: browser navigation is abstracted away
(a detail page is the list of its JSON-LD script blocks, a listing page
is the list of event links it yields), pure helpers become Lean
functions, and every place where the Python code can raise an uncaught
exception is modelled with `Except String`, the error string naming the
Python exception class.
-/

set_option maxRecDepth 20000

namespace BK

/-- JSON values as returned by `json.loads`.  Object fields are kept as an
association list; `json.loads` collapses duplicate keys, so lookups may
assume keys are unique. -/
inductive Json where
  | null
  | bool (b : Bool)
  | num (n : Int)
  | str (s : String)
  | arr (items : List Json)
  | obj (fields : List (String × Json))
  deriving Repr

/-- Python truthiness (`if not x:`) of a JSON value. -/
def pyTruthy : Json → Bool
  | .null => false
  | .bool b => b
  | .num n => n != 0
  | .str s => !s.isEmpty
  | .arr items => !items.isEmpty
  | .obj fields => !fields.isEmpty

/-- `d.get(k, default)` where `d` is known to be a dict. -/
def dictGetD (fields : List (String × Json)) (k : String) (d : Json) : Json :=
  match fields.lookup k with
  | some v => v
  | none => d

/-- `v.get(k, default)` in Python: raises `AttributeError` when `v` is not a
dict (e.g. `"Brisbane".get(...)`). -/
def pyGetD (v : Json) (k : String) (d : Json) : Except String Json :=
  match v with
  | .obj fields => .ok (dictGetD fields k d)
  | _ => .error "AttributeError"

/-- Python `x == "Event"`: true exactly when `x` is that string. -/
def isEventTag : Json → Bool
  | .str s => s == "Event"
  | _ => false

/-- `isinstance(item, dict) and item.get("@type") == "Event"`. -/
def isEventDict (j : Json) : Bool :=
  match j with
  | .obj fields => isEventTag (dictGetD fields "@type" .null)
  | _ => false

/-- The flattened extraction result returned by `extract_event_details`
(lines 161-173).  Every field holds the raw JSON value (`Json.null` models
Python `None`, the `.get` default). -/
structure RawEventRecord where
  title : Json
  description : Json
  start : Json
  end_ : Json
  venue : Json
  street : Json
  locality : Json
  region : Json
  postcode : Json
  country : Json
  url : Json
  deriving Repr

/-- Lines 156-173: flatten the selected Event dict.  `location` and
`address` default to `{}` when missing, but `.get` on a present non-dict
value raises `AttributeError` (modelled by `pyGetD`). -/
def flattenEvent (event_data : Json) : Except String RawEventRecord := do
  let location ← pyGetD event_data "location" (.obj [])
  let address ← pyGetD location "address" (.obj [])
  let title ← pyGetD event_data "name" .null
  let description ← pyGetD event_data "description" .null
  let start ← pyGetD event_data "startDate" .null
  let end_ ← pyGetD event_data "endDate" .null
  let venue ← pyGetD location "name" .null
  let street ← pyGetD address "streetAddress" .null
  let locality ← pyGetD address "addressLocality" .null
  let region ← pyGetD address "addressRegion" .null
  let postcode ← pyGetD address "postalCode" .null
  let country ← pyGetD address "addressCountry" .null
  let url ← pyGetD event_data "url" .null
  return ⟨title, description, start, end_, venue, street, locality, region,
          postcode, country, url⟩

/-- Lines 140-144: first dict in a parsed JSON array whose `@type` is
`"Event"`. -/
def firstEventInList : List Json → Option Json
  | [] => none
  | item :: rest => if isEventDict item then some item else firstEventInList rest

/-- Lines 124-150: scan the page's script blocks for the first Event-typed
record.  A block is `none` when its text was empty after stripping or
failed `json.loads` (both `continue`). -/
def findEventData : List (Option Json) → Option Json
  | [] => none
  | none :: rest => findEventData rest
  | some parsed :: rest =>
    let event_data : Option Json :=
      match parsed with
      | .arr items => firstEventInList items
      | .obj _ => if isEventDict parsed then some parsed else none
      | _ => none
    match event_data with
    | some e => some e
    | none => findEventData rest

/-- Lines 100-173, `extract_event_details`, with page navigation abstracted
to the list of JSON-LD script blocks found on the detail page.
`.ok none` models `return None` (no Event record on the page). -/
def extract_event_details (blocks : List (Option Json)) :
    Except String (Option RawEventRecord) :=
  match findEventData blocks with
  | none => .ok none
  | some event_data => (flattenEvent event_data).map some

/-- The selection rule exactly as the specification words it: iterate
blocks in document order, a block that parsed to a sequence contributes
its items in order, and the first Event-typed record wins. -/
def firstEventSpec (blocks : List (Option Json)) : Option Json :=
  (blocks.flatMap (fun b =>
    match b with
    | none => []
    | some (.arr items) => items
    | some j => [j])).find? isEventDict

/-! ### Datetimes

`datetime.fromisoformat`, `astimezone(timezone.utc)` and
`strftime("%Y%m%dT%H%M%SZ")`, shallowly embedded.  A `PyDateTime` carries
the civil fields plus an optional UTC offset in seconds (`none` = naive).
The grammar accepted by the parser is the extended ISO-8601 profile
`YYYY-MM-DD[<sep>HH:MM[:SS[.f{1,6}]]][Z|±HH:MM[:SS]]` that
`fromisoformat` handles, with the same field validation (`ValueError`
otherwise). -/

/-- A Python `datetime` value (offset in seconds east of UTC). -/
structure PyDateTime where
  year : Nat
  month : Nat
  day : Nat
  hour : Nat
  minute : Nat
  second : Nat
  microsecond : Nat
  utcoffset : Option Int
  deriving Repr, DecidableEq

def isLeapYear (y : Nat) : Bool :=
  (y % 4 == 0 && y % 100 != 0) || y % 400 == 0

def daysInMonth (y m : Nat) : Nat :=
  if m = 2 then (if isLeapYear y then 29 else 28)
  else if m = 4 ∨ m = 6 ∨ m = 9 ∨ m = 11 then 30
  else 31

/-- Python `datetime` range and field bounds (`MINYEAR = 1`,
`MAXYEAR = 9999`; offsets strictly shorter than one day). -/
def validDate (y m d : Nat) : Bool :=
  1 ≤ y && y ≤ 9999 && 1 ≤ m && m ≤ 12 && 1 ≤ d && d ≤ daysInMonth y m

def validDT (dt : PyDateTime) : Bool :=
  validDate dt.year dt.month dt.day && dt.hour ≤ 23 && dt.minute ≤ 59 &&
  dt.second ≤ 59 && dt.microsecond ≤ 999999 &&
  (match dt.utcoffset with
   | none => true
   | some off => off.natAbs ≤ 86399)

def digitVal (c : Char) : Nat := c.toNat - 48

/-- Read exactly `n` ASCII digits. -/
def readDigitsAux (acc : Nat) : Nat → List Char → Option (Nat × List Char)
  | 0, cs => some (acc, cs)
  | _ + 1, [] => none
  | n + 1, c :: cs =>
    if c.isDigit then readDigitsAux (acc * 10 + digitVal c) n cs else none

def expectChar (c : Char) : List Char → Option (List Char)
  | [] => none
  | x :: xs => if x = c then some xs else none

/-- Fractional seconds: one to six digits, scaled to microseconds. -/
def readFrac (cs : List Char) : Option (Nat × List Char) :=
  let ds := cs.takeWhile Char.isDigit
  let rest := cs.dropWhile Char.isDigit
  if ds.length = 0 ∨ 6 < ds.length then none
  else some ((ds.foldl (fun a c => a * 10 + digitVal c) 0) * 10 ^ (6 - ds.length), rest)

/-- Timezone suffix: empty (naive), `Z`, or `±HH:MM[:SS]` with the
component bounds `fromisoformat` enforces. -/
def parseOffset : List Char → Option (Option Int × List Char)
  | [] => some (none, [])
  | c :: rest =>
    if c = 'Z' ∨ c = 'z' then some (some 0, rest)
    else if c = '+' ∨ c = '-' then
      (do
        let (oh, r1) ← readDigitsAux 0 2 rest
        let r2 ← expectChar ':' r1
        let (om, r3) ← readDigitsAux 0 2 r2
        let (os, r4) ←
          match expectChar ':' r3 with
          | some ra => do
              let (os, rb) ← readDigitsAux 0 2 ra
              some (os, rb)
          | none => some (0, r3)
        if oh ≤ 23 ∧ om ≤ 59 ∧ os ≤ 59 then
          let mag : Int := (oh * 3600 + om * 60 + os : Nat)
          some (some (if c = '+' then mag else -mag), r4)
        else none)
    else none

/-- The unvalidated field parse of an ISO-8601 string. -/
def parseIso (cs : List Char) : Option PyDateTime := do
  let (y, r1) ← readDigitsAux 0 4 cs
  let r2 ← expectChar '-' r1
  let (mo, r3) ← readDigitsAux 0 2 r2
  let r4 ← expectChar '-' r3
  let (d, r5) ← readDigitsAux 0 2 r4
  match r5 with
  | [] => some ⟨y, mo, d, 0, 0, 0, 0, none⟩
  | _ :: r6 => do
      let (hh, r7) ← readDigitsAux 0 2 r6
      let r8 ← expectChar ':' r7
      let (mi, r9) ← readDigitsAux 0 2 r8
      let (ss, us, r10) ←
        match expectChar ':' r9 with
        | some ra => do
            let (s2, rb) ← readDigitsAux 0 2 ra
            match expectChar '.' rb with
            | some rc => do
                let (u, rd) ← readFrac rc
                some (s2, u, rd)
            | none => some (s2, 0, rb)
        | none => some (0, 0, r9)
      let (off, r11) ← parseOffset r10
      if r11.isEmpty then some ⟨y, mo, d, hh, mi, ss, us, off⟩ else none

/-- `datetime.fromisoformat` (line 228): parse, then validate every field;
any failure is a `ValueError`. -/
def fromisoformat (s : String) : Except String PyDateTime :=
  match parseIso s.toList with
  | some dt => if validDT dt then .ok dt else .error "ValueError"
  | none => .error "ValueError"

/-! Proleptic-Gregorian day count (Python `date.toordinal`:
0001-01-01 is day 1). -/

/-- Days in the months before month `m` of a common year. -/
def monthDays (m : Nat) : Nat :=
  match m with
  | 1 => 0 | 2 => 31 | 3 => 59 | 4 => 90 | 5 => 120 | 6 => 151 | 7 => 181
  | 8 => 212 | 9 => 243 | 10 => 273 | 11 => 304 | 12 => 334 | _ => 0

def daysBeforeMonth (y m : Nat) : Nat :=
  monthDays m + (if 3 ≤ m ∧ isLeapYear y = true then 1 else 0)

def daysBeforeYear (y : Nat) : Nat :=
  365 * (y - 1) + (y - 1) / 4 - (y - 1) / 100 + (y - 1) / 400

def toOrdinal (y m d : Nat) : Nat :=
  daysBeforeYear y + daysBeforeMonth y m + d

/-- The calendar successor of a civil date. -/
def nextDay (y m d : Nat) : Nat × Nat × Nat :=
  if d < daysInMonth y m then (y, m, d + 1)
  else if m < 12 then (y, m + 1, 1)
  else (y + 1, 1, 1)

/-- The calendar predecessor of a civil date. -/
def prevDay (y m d : Nat) : Nat × Nat × Nat :=
  if 2 ≤ d then (y, m, d - 1)
  else if 2 ≤ m then (y, m - 1, daysInMonth y (m - 1))
  else (y - 1, 12, 31)

/-- Move the civil date by the whole days contained in the shifted
time-of-day `t` (the offset is strictly shorter than a day, so at most
one calendar day in either direction). -/
def astimezoneShift (y m d : Nat) (t : Int) : Nat × Nat × Nat × Int :=
  if t < 0 then
    ((prevDay y m d).1, (prevDay y m d).2.1, (prevDay y m d).2.2, t + 86400)
  else if 86400 ≤ t then
    ((nextDay y m d).1, (nextDay y m d).2.1, (nextDay y m d).2.2, t - 86400)
  else (y, m, d, t)

/-- `dt.astimezone(timezone.utc)` (line 229) on an aware datetime: shift
the civil fields by minus the offset; a result outside years 1-9999
raises `OverflowError`.  On a naive datetime Python would consult the
host timezone, which the model has no access to. -/
def astimezoneUtc (dt : PyDateTime) : Except String PyDateTime :=
  match dt.utcoffset with
  | none => .error "naive datetime: result depends on the host timezone"
  | some off =>
    let shifted := astimezoneShift dt.year dt.month dt.day
      (((dt.hour * 3600 + dt.minute * 60 + dt.second : Nat) : Int) - off)
    if shifted.1 < 1 ∨ 9999 < shifted.1 then .error "OverflowError"
    else
      let s := shifted.2.2.2.toNat
      .ok { year := shifted.1, month := shifted.2.1, day := shifted.2.2.1,
            hour := s / 3600, minute := s / 60 % 60, second := s % 60,
            microsecond := dt.microsecond, utcoffset := some 0 }

def digitChar (n : Nat) : Char := Char.ofNat (48 + n)

def pad2 (n : Nat) : String := ⟨[digitChar (n / 10 % 10), digitChar (n % 10)]⟩

def pad4 (n : Nat) : String :=
  ⟨[digitChar (n / 1000 % 10), digitChar (n / 100 % 10),
    digitChar (n / 10 % 10), digitChar (n % 10)]⟩

/-- `strftime("%Y%m%dT%H%M%SZ")` (line 231), all fields zero-padded as
documented; the format has no microsecond directive, so microseconds are
dropped. -/
def strftimeICS (dt : PyDateTime) : String :=
  pad4 dt.year ++ pad2 dt.month ++ pad2 dt.day ++ "T" ++
  pad2 dt.hour ++ pad2 dt.minute ++ pad2 dt.second ++ "Z"

/-- Lines 210-231, `to_ics_datetime`.  The argument is the raw JSON field
value: falsy input (`None`, `""`, ...) returns `None`; a truthy
non-string raises `TypeError` inside `fromisoformat`. -/
def to_ics_datetime (dt_str : Json) : Except String (Option String) :=
  if !pyTruthy dt_str then .ok none
  else
    match dt_str with
    | .str s => do
        let dt ← fromisoformat s
        let dt_utc ← astimezoneUtc dt
        .ok (some (strftimeICS dt_utc))
    | _ => .error "TypeError"

/-- The absolute instant (in seconds, on the proleptic-Gregorian line
`toOrdinal` counts) denoted by civil fields plus an offset. -/
def instantOf (dt : PyDateTime) (off : Int) : Int :=
  (toOrdinal dt.year dt.month dt.day : Int) * 86400
    + ((dt.hour * 3600 + dt.minute * 60 + dt.second : Nat) : Int) - off

/-- The same instant at microsecond precision. -/
def instantUsOf (dt : PyDateTime) (off : Int) : Int :=
  instantOf dt off * 1000000 + (dt.microsecond : Int)

/-- The output shape required by the specification: `^\d{8}T\d{6}Z$`. -/
def matchesIcsShape (s : String) : Bool :=
  match s.toList with
  | [a, b, c, d, e, f, g, h, t, i, j, k, l, m, n, z] =>
    a.isDigit && b.isDigit && c.isDigit && d.isDigit && e.isDigit &&
    f.isDigit && g.isDigit && h.isDigit && t = 'T' && i.isDigit &&
    j.isDigit && k.isDigit && l.isDigit && m.isDigit && n.isDigit && z = 'Z'
  | _ => false

/-- Independent re-parser for the claimed round trip: the UTC instant a
`YYYYMMDDTHHMMSSZ` string denotes, or `none` if it is not of that shape. -/
def parseIcsInstant (s : String) : Option Int :=
  match s.toList with
  | [a, b, c, d, e, f, g, h, t, i, j, k, l, m, n, z] =>
    if (a.isDigit && b.isDigit && c.isDigit && d.isDigit && e.isDigit &&
        f.isDigit && g.isDigit && h.isDigit && i.isDigit && j.isDigit &&
        k.isDigit && l.isDigit && m.isDigit && n.isDigit) ∧ t = 'T' ∧ z = 'Z' then
      let yv := digitVal a * 1000 + digitVal b * 100 + digitVal c * 10 + digitVal d
      let mv := digitVal e * 10 + digitVal f
      let dv := digitVal g * 10 + digitVal h
      let hv := digitVal i * 10 + digitVal j
      let miv := digitVal k * 10 + digitVal l
      let sv := digitVal m * 10 + digitVal n
      some ((toOrdinal yv mv dv : Int) * 86400 + ((hv * 3600 + miv * 60 + sv : Nat) : Int))
    else none
  | _ => none

/-- Microsecond-precision instant of an output string (the format carries
no sub-second field, so it is whole seconds). -/
def parseIcsInstantUs (s : String) : Option Int :=
  (parseIcsInstant s).map (· * 1000000)

/-! ### Text sanitisation (`clean_description`, lines 180-207) -/

/-- Whitespace as matched by Python `\s` on the characters that occur
here (ASCII whitespace plus the no-break space that `&nbsp;` decodes to;
the remaining Unicode space code points behave identically). -/
def pyIsSpace (c : Char) : Bool :=
  c = ' ' ∨ c = '\t' ∨ c = '\n' ∨ c = '\r' ∨ c = '\x0b' ∨ c = '\x0c' ∨
  c = ' '

/-- `some rest` when `lit` starts the input, with `rest` the remainder. -/
def dropLit : List Char → List Char → Option (List Char)
  | [], rest => some rest
  | _ :: _, [] => none
  | p :: ps, c :: cs => if p = c then dropLit ps cs else none

/-- The HTML named references this model decodes, longest name first,
semicolon-less legacy forms included — the subset of the HTML5 table that
matters here.  `html.unescape` consults the full table but, like this
model, replaces left to right without rescanning its own output and
leaves `&`-free text untouched. -/
def entityTable : List (List Char × Char) :=
  [("quot;".toList, '"'), ("nbsp;".toList, ' '), ("amp;".toList, '&'),
   ("lt;".toList, '<'), ("gt;".toList, '>'), ("quot".toList, '"'),
   ("nbsp".toList, ' '), ("amp".toList, '&'), ("lt".toList, '<'),
   ("gt".toList, '>')]

/-- Try each table entry at the head of the input. -/
def matchEntity : List (List Char × Char) → List Char → Option (Char × List Char)
  | [], _ => none
  | (name, decoded) :: table, cs =>
    match dropLit name cs with
    | some rest => some (decoded, rest)
    | none => matchEntity table cs

/-- `html.unescape` (line 199) on the modelled entity subset.  Every step
consumes at least one character, so fuel equal to the input length
computes the scan to the end (the fuel-out branch is unreachable). -/
def unescapeGo : Nat → List Char → List Char
  | 0, l => l
  | _ + 1, [] => []
  | fuel + 1, c :: rest =>
    if c = '&' then
      match matchEntity entityTable rest with
      | some (d, rest2) => d :: unescapeGo fuel rest2
      | none => '&' :: unescapeGo fuel rest
    else c :: unescapeGo fuel rest

def unescapeL (l : List Char) : List Char := unescapeGo l.length l

/-- After a `<`, the remainder past the first `>`, provided no newline
intervenes (`.` in the regex `<.*?>` does not cross newlines). -/
def findTagEnd : List Char → Option (List Char)
  | [] => none
  | c :: rest =>
    if c = '>' then some rest
    else if c = '\n' then none
    else findTagEnd rest

/-- `re.sub("<.*?>", "", text)` (line 202): leftmost, shortest matches;
a `<` with no matching `>` on the same line is kept literally.  Fuel as
in `unescapeGo`. -/
def stripTagsGo : Nat → List Char → List Char
  | 0, l => l
  | _ + 1, [] => []
  | fuel + 1, c :: rest =>
    if c = '<' then
      match findTagEnd rest with
      | some rest2 => stripTagsGo fuel rest2
      | none => '<' :: stripTagsGo fuel rest
    else c :: stripTagsGo fuel rest

def stripTagsL (l : List Char) : List Char := stripTagsGo l.length l

/-- `re.sub(r"\s+", " ", text)` (line 205): every maximal whitespace run
becomes one space. -/
def collapseWsL : List Char → List Char
  | [] => []
  | [c] => if pyIsSpace c then [' '] else [c]
  | c1 :: c2 :: rest =>
    if pyIsSpace c1 ∧ pyIsSpace c2 then collapseWsL (c2 :: rest)
    else (if pyIsSpace c1 then ' ' else c1) :: collapseWsL (c2 :: rest)

/-- Trailing-whitespace removal, structurally. -/
def dropTrailWs : List Char → List Char
  | [] => []
  | c :: rest =>
    let r := dropTrailWs rest
    if r.isEmpty ∧ pyIsSpace c then [] else c :: r

/-- `.strip()` (line 205). -/
def stripWs (l : List Char) : List Char := dropTrailWs (l.dropWhile pyIsSpace)

/-- The sanitiser pipeline on a string: decode entities, strip tags,
collapse whitespace, trim. -/
def sanitizeStr (s : String) : String :=
  ⟨stripWs (collapseWsL (stripTagsL (unescapeL s.toList)))⟩

/-- Lines 180-207, `clean_description`, on the raw JSON field value:
falsy input yields `""`; a truthy non-string raises `TypeError` inside
`html.unescape`. -/
def clean_description (desc : Json) : Except String String :=
  if !pyTruthy desc then .ok ""
  else
    match desc with
    | .str s => .ok (sanitizeStr s)
    | _ => .error "TypeError"

/-! ### `make_uid` (lines 234-249): MD5 of the UTF-8 encoded URL

`hashlib.md5` is the reference MD5 of RFC 1321, implemented here over
byte lists with `Nat` words reduced modulo `2^32`. -/

def add32 (a b : Nat) : Nat := (a + b) % 4294967296

def not32 (a : Nat) : Nat := 4294967295 - a % 4294967296

def rotl32 (x s : Nat) : Nat :=
  ((x <<< s) % 4294967296) ||| ((x % 4294967296) >>> (32 - s))

/-- The 64 round constants `floor(abs(sin(i+1)) * 2^32)`. -/
def md5K : List Nat :=
  [0xd76aa478, 0xe8c7b756, 0x242070db, 0xc1bdceee,
   0xf57c0faf, 0x4787c62a, 0xa8304613, 0xfd469501,
   0x698098d8, 0x8b44f7af, 0xffff5bb1, 0x895cd7be,
   0x6b901122, 0xfd987193, 0xa679438e, 0x49b40821,
   0xf61e2562, 0xc040b340, 0x265e5a51, 0xe9b6c7aa,
   0xd62f105d, 0x02441453, 0xd8a1e681, 0xe7d3fbc8,
   0x21e1cde6, 0xc33707d6, 0xf4d50d87, 0x455a14ed,
   0xa9e3e905, 0xfcefa3f8, 0x676f02d9, 0x8d2a4c8a,
   0xfffa3942, 0x8771f681, 0x6d9d6122, 0xfde5380c,
   0xa4beea44, 0x4bdecfa9, 0xf6bb4b60, 0xbebfbc70,
   0x289b7ec6, 0xeaa127fa, 0xd4ef3085, 0x04881d05,
   0xd9d4d039, 0xe6db99e5, 0x1fa27cf8, 0xc4ac5665,
   0xf4292244, 0x432aff97, 0xab9423a7, 0xfc93a039,
   0x655b59c3, 0x8f0ccc92, 0xffeff47d, 0x85845dd1,
   0x6fa87e4f, 0xfe2ce6e0, 0xa3014314, 0x4e0811a1,
   0xf7537e82, 0xbd3af235, 0x2ad7d2bb, 0xeb86d391]

/-- The per-round left-rotation amounts. -/
def md5S : List Nat :=
  [7, 12, 17, 22, 7, 12, 17, 22, 7, 12, 17, 22, 7, 12, 17, 22,
   5, 9, 14, 20, 5, 9, 14, 20, 5, 9, 14, 20, 5, 9, 14, 20,
   4, 11, 16, 23, 4, 11, 16, 23, 4, 11, 16, 23, 4, 11, 16, 23,
   6, 10, 15, 21, 6, 10, 15, 21, 6, 10, 15, 21, 6, 10, 15, 21]

def md5F (i b c d : Nat) : Nat :=
  if i < 16 then (b &&& c) ||| (not32 b &&& d)
  else if i < 32 then (d &&& b) ||| (not32 d &&& c)
  else if i < 48 then b ^^^ c ^^^ d
  else c ^^^ (b ||| not32 d)

def md5G (i : Nat) : Nat :=
  if i < 16 then i
  else if i < 32 then (5 * i + 1) % 16
  else if i < 48 then (3 * i + 5) % 16
  else (7 * i) % 16

/-- Word `g` (little endian) of a 64-byte block. -/
def chunkWord (block : List Nat) (g : Nat) : Nat :=
  block.getD (4 * g) 0 + 256 * block.getD (4 * g + 1) 0 +
  65536 * block.getD (4 * g + 2) 0 + 16777216 * block.getD (4 * g + 3) 0

def md5Step (M : Nat → Nat) (st : Nat × Nat × Nat × Nat) (i : Nat) :
    Nat × Nat × Nat × Nat :=
  let f := md5F i st.2.1 st.2.2.1 st.2.2.2
  let tmp := add32 (add32 (add32 st.1 f) (md5K.getD i 0)) (M (md5G i))
  (st.2.2.2, add32 st.2.1 (rotl32 tmp (md5S.getD i 0)), st.2.1, st.2.2.1)

def md5Chunk (st : Nat × Nat × Nat × Nat) (block : List Nat) :
    Nat × Nat × Nat × Nat :=
  let r := (List.range 64).foldl (md5Step (chunkWord block)) st
  (add32 st.1 r.1, add32 st.2.1 r.2.1, add32 st.2.2.1 r.2.2.1,
   add32 st.2.2.2 r.2.2.2)

/-- Split into 64-byte blocks (fuel-driven; each step consumes at least
one byte, so fuel equal to the length suffices). -/
def chunks64Go : Nat → List Nat → List (List Nat)
  | 0, _ => []
  | _ + 1, [] => []
  | fuel + 1, l => l.take 64 :: chunks64Go fuel (l.drop 64)

def chunks64 (l : List Nat) : List (List Nat) := chunks64Go l.length l

/-- `n` as `k` little-endian bytes. -/
def leBytes : Nat → Nat → List Nat
  | 0, _ => []
  | k + 1, n => n % 256 :: leBytes k (n / 256)

/-- RFC 1321 padding: `0x80`, zeros to 56 mod 64, 8-byte bit length. -/
def md5Pad (msg : List Nat) : List Nat :=
  msg ++ [0x80] ++ List.replicate ((119 - msg.length % 64) % 64) 0 ++
  leBytes 8 ((msg.length * 8) % 18446744073709551616)

def md5Digest (msg : List Nat) : List Nat :=
  let st := (chunks64 (md5Pad msg)).foldl md5Chunk
    (0x67452301, 0xefcdab89, 0x98badcfe, 0x10325476)
  leBytes 4 st.1 ++ leBytes 4 st.2.1 ++ leBytes 4 st.2.2.1 ++ leBytes 4 st.2.2.2

def hexChar (n : Nat) : Char :=
  if n < 10 then digitChar n else Char.ofNat (87 + n)

def byteHex (b : Nat) : List Char := [hexChar (b / 16 % 16), hexChar (b % 16)]

/-- `.hexdigest()`. -/
def md5Hex (msg : List Nat) : String := ⟨(md5Digest msg).flatMap byteHex⟩

/-- `str.encode()`: UTF-8 bytes of one character. -/
def utf8Bytes (c : Char) : List Nat :=
  let n := c.toNat
  if n < 128 then [n]
  else if n < 2048 then [192 ||| (n >>> 6), 128 ||| (n &&& 63)]
  else if n < 65536 then
    [224 ||| (n >>> 12), 128 ||| ((n >>> 6) &&& 63), 128 ||| (n &&& 63)]
  else
    [240 ||| (n >>> 18), 128 ||| ((n >>> 12) &&& 63),
     128 ||| ((n >>> 6) &&& 63), 128 ||| (n &&& 63)]

def utf8Encode (s : String) : List Nat := s.toList.flatMap utf8Bytes

/-- Lines 234-249, `make_uid`. -/
def make_uid (url : String) : String :=
  md5Hex (utf8Encode url) ++ "@brisbanekids"

/-! ### ICS assembly (`build_ics_event`, `build_ics_file`) -/

/-- A single-quote string, spelled via its code point. -/
def squote : String := String.singleton (Char.ofNat 39)

mutual

/-- Python `repr` of a JSON value, used by `str()` inside containers.
Quoting is modelled with single quotes throughout; Python only switches
style for text containing quotes, which nothing here exercises. -/
def pyRepr : Json → String
  | .null => "None"
  | .bool b => if b then "True" else "False"
  | .num n => toString n
  | .str s => squote ++ s ++ squote
  | .arr items => "[" ++ pyReprItems items ++ "]"
  | .obj fields => "\x7b" ++ pyReprFields fields ++ "\x7d"

/-- Comma-separated element reprs of a list. -/
def pyReprItems : List Json → String
  | [] => ""
  | [x] => pyRepr x
  | x :: xs => pyRepr x ++ ", " ++ pyReprItems xs

/-- Comma-separated `key: value` reprs of a dict. -/
def pyReprFields : List (String × Json) → String
  | [] => ""
  | [(k, v)] => squote ++ k ++ squote ++ ": " ++ pyRepr v
  | (k, v) :: xs =>
    squote ++ k ++ squote ++ ": " ++ pyRepr v ++ ", " ++ pyReprFields xs

end

/-- `str()` as an f-string applies it: strings stay as they are, `None`
prints as `"None"`, containers via `repr`. -/
def pyStr : Json → String
  | .str s => s
  | j => pyRepr j

/-- `str()` of `to_ics_datetime`'s result (a string or `None`). -/
def pyStrOpt : Option String → String
  | none => "None"
  | some s => s

/-- The lines of a string, i.e. `s.split("\n")`. -/
def splitLinesL : List Char → List (List Char)
  | [] => [[]]
  | c :: rest =>
    if c = '\n' then [] :: splitLinesL rest
    else
      match splitLinesL rest with
      | [] => [[c]]
      | w :: ws => (c :: w) :: ws

def linesOf (s : String) : List String :=
  (splitLinesL s.toList).map (fun l => ⟨l⟩)

/-- `"\n".join`, at the character-list level. -/
def joinLinesL : List (List Char) → List Char
  | [] => []
  | [p] => p
  | p :: ps => p ++ '\n' :: joinLinesL ps

def joinLines (parts : List String) : String :=
  ⟨joinLinesL (parts.map String.toList)⟩

/-- `str.join` accepts only strings as elements (`TypeError` otherwise). -/
def joinArg : Json → Except String String
  | .str s => .ok s
  | _ => .error "TypeError"

/-- The element-wise string check `join` performs, left to right. -/
def joinArgs : List Json → Except String (List String)
  | [] => .ok []
  | p :: ps => do
    let s ← joinArg p
    let rest ← joinArgs ps
    return s :: rest

/-- `sep.join(seq)`. -/
def pyJoin (sep : String) (parts : List Json) : Except String String := do
  let strs ← joinArgs parts
  return sep.intercalate strs

/-- Lines 252-297, `build_ics_event`.  `now` is the already-formatted
DTSTAMP value (the wall clock is injected).  The f-string template is ten
lines joined by newlines; each interpolation is Python `str()`. -/
def build_ics_event (event : RawEventRecord) (now : String) :
    Except String String := do
  let start ← to_ics_datetime event.start
  let end_ ← to_ics_datetime event.end_
  let desc ← clean_description event.description
  let location_parts := [event.venue, event.street, event.locality,
                         event.region, event.postcode, event.country]
  let location ← pyJoin ", " (location_parts.filter pyTruthy)
  let uid ← match event.url with
    | .str u => Except.ok (make_uid u)
    | _ => Except.error "AttributeError"
  return joinLines
    ["BEGIN:VEVENT",
     "UID:" ++ uid,
     "DTSTAMP:" ++ now,
     "DTSTART:" ++ pyStrOpt start,
     "DTEND:" ++ pyStrOpt end_,
     "SUMMARY:" ++ pyStr event.title,
     "DESCRIPTION:" ++ desc,
     "LOCATION:" ++ location,
     "URL:" ++ pyStr event.url,
     "END:VEVENT"]

/-- Lines 300-319, `build_ics_file`: the envelope around the newline-joined
event blocks. -/
def build_ics_file (events : List String) : String :=
  "BEGIN:VCALENDAR\nVERSION:2.0\nPRODID:-//BryanScraper//EN\n" ++
  joinLines events ++ "\nEND:VCALENDAR"

/-- The specification's location rule, written from its words: keep the
non-empty sub-fields in the fixed order, join with a comma and space. -/
def specLocation (venue street locality region postcode country : Option String) :
    String :=
  ", ".intercalate
    (([venue, street, locality, region, postcode, country].filterMap id).filter
      (fun s => !s.isEmpty))

/-- An optional string as the JSON field value it came from. -/
def optJson : Option String → Json
  | none => .null
  | some s => .str s

/-! ### URL generation (`get_month_urls`, lines 24-52) -/

/-- The injected current date (`datetime.today()`). -/
structure PyDate where
  year : Nat
  month : Nat
  day : Nat
  deriving Repr, DecidableEq

/-- `f"https://brisbanekids.com.au/events/month/{dt.year}-{dt.month:02d}/"`:
the year unpadded, the month zero-padded to two digits. -/
def fmtMonthUrl (y m : Nat) : String :=
  "https://brisbanekids.com.au/events/month/" ++ toString y ++ "-" ++
  pad2 m ++ "/"

/-- Lines 24-52, `get_month_urls`, over the injected `today`. -/
def get_month_urls (today : PyDate) : List String :=
  let this_month : PyDate := { today with day := 1 }
  let next_month : PyDate :=
    if this_month.month = 12 then
      { this_month with year := this_month.year + 1, month := 1 }
    else
      { this_month with month := this_month.month + 1 }
  [fmtMonthUrl this_month.year this_month.month,
   fmtMonthUrl next_month.year next_month.month]

/-! ### The orchestrator (`main`, lines 326-370)

Navigation is abstracted: a listing page is the link list it yields, and
`pages` maps an event URL to the JSON-LD blocks of its detail page.
Python's `set` keeps the links deduplicated; iteration order of a set is
arbitrary, so the model fixes first-insertion order (no claim depends on
the order, only on the membership). -/

/-- `all_links.update(links)`. -/
def addLinks (s : List String) (links : List String) : List String :=
  links.foldl (fun acc href => if href ∈ acc then acc else acc ++ [href]) s

/-- The deduplicated union of the two monthly link lists (line 345-351). -/
def all_links (links1 links2 : List String) : List String :=
  addLinks (addLinks [] links1) links2

/-- One iteration of the loop at lines 357-361: extract, and build a block
when an Event record was found. -/
def linkBlock (pages : String → List (Option Json)) (now : String)
    (url : String) : Except String (Option String) := do
  let details ← extract_event_details (pages url)
  match details with
  | none => return none
  | some ev => do
      let block ← build_ics_event ev now
      return some block

/-- Lines 356-361: the per-link loop.  There is no `try`/`except`, so an
exception raised for one link propagates and aborts the whole loop. -/
def processLinks (pages : String → List (Option Json)) (now : String) :
    List String → Except String (List String)
  | [] => .ok []
  | url :: rest => do
    let first ← linkBlock pages now url
    match first with
    | none => processLinks pages now rest
    | some block => do
        let blocks ← processLinks pages now rest
        return block :: blocks

/-- The run after link collection: process every deduplicated link, then
wrap the blocks into the calendar document (lines 356-366). -/
def mainRun (links1 links2 : List String)
    (pages : String → List (Option Json)) (now : String) :
    Except String String :=
  (processLinks pages now (all_links links1 links2)).map build_ics_file

/-! ### Auxiliary predicates and concrete inputs used by the theorems -/

/-- What one link contributes to the block list. -/
def linkContribution (pages : String → List (Option Json)) (now : String)
    (u : String) : List String :=
  match linkBlock pages now u with
  | .ok (some b) => [b]
  | _ => []

/-- A whitespace-normal form: every whitespace character is a plain
space and no two spaces are adjacent. -/
def collapsedB : List Char → Bool
  | [] => true
  | [c] => !pyIsSpace c || (c == ' ')
  | c1 :: c2 :: rest =>
    (!pyIsSpace c1 || ((c1 == ' ') && !pyIsSpace c2)) && collapsedB (c2 :: rest)

/-- A detail page whose Event has a present but unparsable `startDate`. -/
def c1badPage : List (Option Json) :=
  [some (.obj [("@type", .str "Event"), ("name", .str "A"),
               ("startDate", .str "not-a-date"), ("url", .str "https://e/a")])]

/-- A detail page whose Event is entirely well-formed. -/
def c1goodPage : List (Option Json) :=
  [some (.obj [("@type", .str "Event"), ("name", .str "B"),
               ("startDate", .str "2025-01-02T10:00:00+10:00"),
               ("url", .str "https://e/b")])]

def c1pages : String → List (Option Json) := fun u =>
  if u = "https://e/a" then c1badPage else c1goodPage

/-- An event record with a start date and an absent (`None`) end date. -/
def ev6 : RawEventRecord :=
  ⟨.str "Show", .null, .str "2025-03-01T10:00:00+10:00", .null,
   .str "X", .str "1 Main St", .null, .null, .null, .null, .str "https://e/x"⟩

def c6block : String :=
  (build_ics_event ev6 "20250101T000000Z").toOption.getD ""

/-- The detail page served for every link in the C7 scenario; its JSON-LD
`url` field equals the link URL. -/
def c7page : List (Option Json) :=
  [some (.obj [("@type", .str "Event"), ("name", .str "X"),
               ("startDate", .str "2025-01-02T10:00:00+10:00"),
               ("endDate", .str "2025-01-02T11:00:00+10:00"),
               ("url", .str "https://e/x")])]

def c7pages : String → List (Option Json) := fun _ => c7page

def c7record : RawEventRecord :=
  (extract_event_details c7page).toOption.bind id |>.getD
    ⟨.null, .null, .null, .null, .null, .null, .null, .null, .null, .null, .null⟩

def c7b : String :=
  (build_ics_event c7record "20250101T000000Z").toOption.getD ""

def c7blocks : List String :=
  (processLinks c7pages "20250101T000000Z"
    (all_links ["https://e/x"] ["https://e/x"])).toOption.getD []

/-- The fractional-second counterexample input for the datetime claim. -/
def c3str : String := "2024-01-25T14:00:00.500000+10:00"

def c3dt : PyDateTime := ⟨2024, 1, 25, 14, 0, 0, 500000, some 36000⟩

/-- An event record whose location sub-fields match the specification's
worked example (postcode and the rest absent). -/
def ev8 : RawEventRecord :=
  ⟨.str "T", .null, .null, .null, .str "X", .str "1 Main St", .null, .null,
   .null, .null, .str "https://e/x"⟩

/-! ## Theorems -/

/-- C10: with an empty collection of VEVENT blocks, `build_ics_file`
still returns exactly the lines `BEGIN:VCALENDAR`, `VERSION:2.0`, the
fixed PRODID line, an empty line (the interpolated empty body), and
`END:VCALENDAR`, in that order. -/
theorem c10_empty_calendar :
    linesOf (build_ics_file []) =
      ["BEGIN:VCALENDAR", "VERSION:2.0", "PRODID:-//BryanScraper//EN", "",
       "END:VCALENDAR"] := by
  rfl

/-- C9: for every injected `today` with a valid month, `get_month_urls`
returns exactly two month URLs — the current month and the immediately
following one — with the next month in `[1, 12]` and the year rolling
over from December to January. -/
theorem c9_month_urls (today : PyDate)
    (h1 : 1 ≤ today.month) (h2 : today.month ≤ 12) :
    ∃ ny nm,
      get_month_urls today =
        [fmtMonthUrl today.year today.month, fmtMonthUrl ny nm] ∧
      1 ≤ nm ∧ nm ≤ 12 ∧
      (today.month = 12 → ny = today.year + 1 ∧ nm = 1) ∧
      (today.month < 12 → ny = today.year ∧ nm = today.month + 1) := by
  by_cases h : today.month = 12
  · refine ⟨today.year + 1, 1, ?_, by omega, by omega, fun _ => ⟨rfl, rfl⟩,
      by omega⟩
    simp [get_month_urls, h]
  · refine ⟨today.year, today.month + 1, ?_, by omega, by omega, by omega,
      fun _ => ⟨rfl, rfl⟩⟩
    simp [get_month_urls, h]

/-- C9 witness: December 2025 rolls over to January 2026. -/
theorem c9_month_urls_witness :
    ∃ ny nm,
      get_month_urls ⟨2025, 12, 3⟩ = [fmtMonthUrl 2025 12, fmtMonthUrl ny nm] ∧
      1 ≤ nm ∧ nm ≤ 12 ∧
      ((PyDate.mk 2025 12 3).month = 12 → ny = 2025 + 1 ∧ nm = 1) ∧
      ((PyDate.mk 2025 12 3).month < 12 → ny = 2025 ∧ nm = (PyDate.mk 2025 12 3).month + 1) :=
  c9_month_urls ⟨2025, 12, 3⟩ (by decide) (by decide)

/-- C1 (the code, at the claim's failing input): with the first link's
`startDate` present but not ISO-8601, the `ValueError` raised inside
`to_ics_datetime` propagates uncaught through `build_ics_event` and the
loop in `main`, aborting the whole run — no further links are processed
and no output document is produced, although `to_ics_datetime`'s own
docstring promises `None` for invalid input. -/
theorem c1_unparsable_date_aborts_run :
    to_ics_datetime (.str "not-a-date") = .error "ValueError" ∧
    mainRun ["https://e/a"] ["https://e/b"] c1pages "20250101T000000Z" =
      .error "ValueError" ∧
    mainRun ["https://e/b"] ["https://e/b"] c1pages "20250101T000000Z" =
      .ok (build_ics_file
        [(linkBlock c1pages "20250101T000000Z" "https://e/b").toOption.getD
          none |>.getD ""]) := by
  exact ⟨rfl, rfl, rfl⟩

/-- C5 counterexample: flattening is not total in the shape of the parsed
JSON — an Event whose `location` is a string makes `location.get`
raise `AttributeError`, so extraction fails rather than defaulting. -/
theorem c5_counterexample :
    extract_event_details
      [some (.obj [("@type", .str "Event"), ("location", .str "Brisbane")])] =
      .error "AttributeError" := by
  rfl

/-- C5 (amended): flattening never fails and each output field is the
corresponding source value or absent, provided the `location` value (if
present) and the `address` value under it (if present) are objects —
missing ones default to the empty mapping; a present non-object value
makes the flattening raise instead. -/
theorem c5_flatten_amended (fs lfs afs : List (String × Json))
    (hloc : dictGetD fs "location" (.obj []) = .obj lfs)
    (haddr : dictGetD lfs "address" (.obj []) = .obj afs) :
    flattenEvent (.obj fs) = .ok
      { title := dictGetD fs "name" .null,
        description := dictGetD fs "description" .null,
        start := dictGetD fs "startDate" .null,
        end_ := dictGetD fs "endDate" .null,
        venue := dictGetD lfs "name" .null,
        street := dictGetD afs "streetAddress" .null,
        locality := dictGetD afs "addressLocality" .null,
        region := dictGetD afs "addressRegion" .null,
        postcode := dictGetD afs "postalCode" .null,
        country := dictGetD afs "addressCountry" .null,
        url := dictGetD fs "url" .null } := by
  simp [flattenEvent, pyGetD, hloc, haddr, Except.bind, Bind.bind, Pure.pure,
    Except.pure]

/-- C5 witness: a concrete Event with object-shaped `location` and
`address` flattens totally. -/
theorem c5_flatten_amended_witness :
    flattenEvent (.obj [("@type", .str "Event"), ("name", .str "A"),
      ("location", .obj [("name", .str "V"),
        ("address", .obj [("streetAddress", .str "1 Main St")])])]) = .ok
      { title := .str "A", description := .null, start := .null, end_ := .null,
        venue := .str "V", street := .str "1 Main St", locality := .null,
        region := .null, postcode := .null, country := .null, url := .null } :=
  c5_flatten_amended
    [("@type", .str "Event"), ("name", .str "A"),
     ("location", .obj [("name", .str "V"),
       ("address", .obj [("streetAddress", .str "1 Main St")])])]
    [("name", .str "V"), ("address", .obj [("streetAddress", .str "1 Main St")])]
    [("streetAddress", .str "1 Main St")] (by rfl) (by rfl)

theorem firstEventInList_eq_find (items : List Json) :
    firstEventInList items = items.find? isEventDict := by
  induction items with
  | nil => rfl
  | cons x xs ih =>
    by_cases h : isEventDict x = true <;>
      simp [firstEventInList, List.find?_cons, h, ih]

theorem findEventData_eq (blocks : List (Option Json)) :
    findEventData blocks = firstEventSpec blocks := by
  induction blocks with
  | nil => rfl
  | cons b rest ih =>
    cases b with
    | none => simpa [findEventData, firstEventSpec] using ih
    | some parsed =>
      rw [firstEventSpec, List.flatMap_cons, List.find?_append]
      cases parsed with
      | arr items =>
        rw [findEventData, firstEventInList_eq_find]
        cases h : items.find? isEventDict with
        | none => simp [h, ih, firstEventSpec]
        | some e => simp [h]
      | obj fields =>
        rw [findEventData]
        by_cases h : isEventDict (.obj fields) = true <;>
          simp [List.find?_cons, h, ih, firstEventSpec]
      | null => simpa [findEventData, List.find?_cons, isEventDict,
          firstEventSpec] using ih
      | bool bv => simpa [findEventData, List.find?_cons, isEventDict,
          firstEventSpec] using ih
      | num n => simpa [findEventData, List.find?_cons, isEventDict,
          firstEventSpec] using ih
      | str s => simpa [findEventData, List.find?_cons, isEventDict,
          firstEventSpec] using ih

/-- C2: `extract_event_details` returns the flattened fields of the first
Event-typed record — blocks in document order, a sequence block's items in
order, unparsable blocks skipped — and returns `None` (not an error) when
no Event-typed record exists on the page. -/
theorem c2_first_event_wins (blocks : List (Option Json)) :
    extract_event_details blocks =
      match firstEventSpec blocks with
      | none => .ok none
      | some e => (flattenEvent e).map some := by
  rw [extract_event_details, findEventData_eq]

theorem joinArgs_optJson (l : List (Option String)) :
    joinArgs ((l.map optJson).filter pyTruthy) =
      .ok ((l.filterMap id).filter (fun s => !s.isEmpty)) := by
  induction l with
  | nil => rfl
  | cons o rest ih =>
    cases o with
    | none => simpa [optJson, pyTruthy] using ih
    | some s =>
      by_cases h : s.isEmpty <;>
        simp [optJson, pyTruthy, h, List.filterMap_cons, joinArgs,
          joinArg, ih, Except.bind, Bind.bind, Pure.pure, Except.pure]

/-- C8: the LOCATION value is the comma-and-space join of the non-empty
location sub-fields in the fixed order venue, street, locality, region,
postcode, country; empty or absent fields are omitted entirely, with no
empty placeholders and no dangling separators (the join of what remains). -/
theorem c8_location_fixed_order (ev : RawEventRecord)
    (v st lo re po co : Option String)
    (hv : ev.venue = optJson v) (hst : ev.street = optJson st)
    (hlo : ev.locality = optJson lo) (hre : ev.region = optJson re)
    (hpo : ev.postcode = optJson po) (hco : ev.country = optJson co) :
    pyJoin ", " ([ev.venue, ev.street, ev.locality, ev.region, ev.postcode,
                  ev.country].filter pyTruthy) =
      .ok (specLocation v st lo re po co) := by
  rw [hv, hst, hlo, hre, hpo, hco]
  have h := joinArgs_optJson [v, st, lo, re, po, co]
  simp only [List.map] at h
  simp [pyJoin, h, specLocation, Except.bind, Bind.bind, Pure.pure, Except.pure]

/-- C8 witness: venue `X`, street `1 Main St`, everything else absent
joins to `X, 1 Main St` — no stray comma for the absent postcode. -/
theorem c8_location_fixed_order_witness :
    pyJoin ", " ([ev8.venue, ev8.street, ev8.locality, ev8.region, ev8.postcode,
                  ev8.country].filter pyTruthy) = .ok "X, 1 Main St" :=
  (c8_location_fixed_order ev8 (some "X") (some "1 Main St") none none none none
    rfl rfl rfl rfl rfl rfl).trans (by rfl)


/-! ### Lines of the generated document -/

theorem splitLinesL_ne_nil (l : List Char) : splitLinesL l ≠ [] := by
  induction l with
  | nil => simp [splitLinesL]
  | cons c rest ih =>
    simp only [splitLinesL]
    split
    · simp
    · cases h : splitLinesL rest with
      | nil => simp
      | cons w ws => simp

theorem splitLinesL_append (xs ys : List Char) :
    splitLinesL (xs ++ '\n' :: ys) = splitLinesL xs ++ splitLinesL ys := by
  induction xs with
  | nil => simp [splitLinesL]
  | cons c rest ih =>
    show splitLinesL (c :: (rest ++ '\n' :: ys)) = _
    by_cases h : c = '\n'
    · subst h
      rw [splitLinesL, if_pos rfl, ih]
      rw [show splitLinesL ('\n' :: rest) = [] :: splitLinesL rest from by
        rw [splitLinesL, if_pos rfl]]
      simp
    · rw [splitLinesL, if_neg h, ih]
      rw [show splitLinesL (c :: rest) =
          (match splitLinesL rest with
           | [] => [[c]]
           | w :: ws => (c :: w) :: ws) from by rw [splitLinesL, if_neg h]]
      cases hs : splitLinesL rest with
      | nil => exact absurd hs (splitLinesL_ne_nil rest)
      | cons w ws => simp

theorem noNl_splitLinesL (l : List Char) (h : '\n' ∉ l) :
    splitLinesL l = [l] := by
  induction l with
  | nil => rfl
  | cons c rest ih =>
    simp only [List.mem_cons, not_or] at h
    have hns : splitLinesL rest = [rest] := ih h.2
    have hc : ¬ c = '\n' := fun he => h.1 he.symm
    simp [splitLinesL, hc, hns]

theorem noNl_linesOf (s : String) (h : '\n' ∉ s.toList) :
    linesOf s = [s] := by
  unfold linesOf
  rw [noNl_splitLinesL s.toList h]
  rfl

theorem linesOf_joinLines (parts : List String) (h : parts ≠ []) :
    linesOf (joinLines parts) = parts.flatMap linesOf := by
  induction parts with
  | nil => exact absurd rfl h
  | cons p ps ih =>
    cases ps with
    | nil => simp [joinLines, joinLinesL, linesOf]
    | cons q qs =>
      have key : linesOf (joinLines (p :: q :: qs)) =
          (splitLinesL (p.toList ++ '\n' ::
            joinLinesL ((q :: qs).map String.toList))).map
            (fun l => (⟨l⟩ : String)) := rfl
      rw [key, splitLinesL_append, List.map_append]
      have hback : (splitLinesL (joinLinesL ((q :: qs).map String.toList))).map
          (fun l => (⟨l⟩ : String)) = linesOf (joinLines (q :: qs)) := rfl
      rw [hback, ih (by simp), List.flatMap_cons]
      rfl

theorem isDigit_ne_nl {c : Char} (h : c.isDigit = true) : ¬ c = '\n' := by
  intro he
  subst he
  simp [Char.isDigit] at h

theorem digitChar_isDigit {k : Nat} (h : k < 10) : (digitChar k).isDigit = true := by
  interval_cases k <;> decide

theorem strftimeICS_no_newline (dt : PyDateTime) :
    '\n' ∉ (strftimeICS dt).toList := by
  have hs : (strftimeICS dt).toList =
      [digitChar (dt.year / 1000 % 10), digitChar (dt.year / 100 % 10),
       digitChar (dt.year / 10 % 10), digitChar (dt.year % 10),
       digitChar (dt.month / 10 % 10), digitChar (dt.month % 10),
       digitChar (dt.day / 10 % 10), digitChar (dt.day % 10), 'T',
       digitChar (dt.hour / 10 % 10), digitChar (dt.hour % 10),
       digitChar (dt.minute / 10 % 10), digitChar (dt.minute % 10),
       digitChar (dt.second / 10 % 10), digitChar (dt.second % 10), 'Z'] := by
    show (strftimeICS dt).data = _
    simp [strftimeICS, pad4, pad2, String.data_append]
  rw [hs]
  simp only [List.mem_cons, not_or]
  refine ⟨?_, ?_, ?_, ?_, ?_, ?_, ?_, ?_, by decide, ?_, ?_, ?_, ?_, ?_, ?_,
    by decide, by simp⟩ <;>
    exact fun he => isDigit_ne_nl (digitChar_isDigit (Nat.mod_lt _ (by omega))) he.symm

theorem to_ics_no_newline {v : Json} {st : String}
    (h : to_ics_datetime v = .ok (some st)) : '\n' ∉ st.toList := by
  unfold to_ics_datetime at h
  split at h
  · simp at h
  · cases v with
    | str s =>
      simp only [Except.bind, Bind.bind] at h
      cases hp : fromisoformat s with
      | error e => rw [hp] at h; simp [Except.bind] at h
      | ok dt =>
        rw [hp] at h
        simp only [Except.bind] at h
        cases ha : astimezoneUtc dt with
        | error e => rw [ha] at h; simp at h
        | ok dtU =>
          rw [ha] at h
          simp only [Except.ok.injEq, Option.some.injEq] at h
          cases h
          exact strftimeICS_no_newline dtU
    | null => simp at h
    | bool b => simp at h
    | num n => simp at h
    | arr l => simp at h
    | obj f => simp at h


/-- C6 counterexample: an event record with `startDate` present and
`endDate` absent yields a block whose DTEND line is neither empty nor
omitted — it carries the substitute value `None` (Python `str(None)`). -/
theorem c6_counterexample :
    build_ics_event ev6 "20250101T000000Z" = .ok c6block ∧
    "DTEND:None" ∈ linesOf c6block ∧ "DTEND:" ∉ linesOf c6block := by
  exact ⟨rfl, by decide, by decide⟩

/-- C6 (amended): for an event record whose `startDate` is present and
converts and whose `endDate` is absent, the produced VEVENT block
contains a DTSTART line with the converted value and a DTEND line whose
value is the literal string `None` (Python renders the absent value),
not an empty or omitted DTEND. -/
theorem c6_dtend_is_literal_none (ev : RawEventRecord) (now st b : String)
    (hend : ev.end_ = Json.null)
    (hstart : to_ics_datetime ev.start = .ok (some st))
    (hb : build_ics_event ev now = .ok b) :
    ("DTSTART:" ++ st) ∈ linesOf b ∧ "DTEND:None" ∈ linesOf b := by
  unfold build_ics_event at hb
  rw [hstart, hend] at hb
  simp only [Except.bind, Bind.bind] at hb
  rw [show to_ics_datetime Json.null = .ok none from rfl] at hb
  cases hd : clean_description ev.description with
  | error e => rw [hd] at hb; exact absurd hb (by simp)
  | ok desc =>
    rw [hd] at hb
    cases hj : pyJoin ", " ([ev.venue, ev.street, ev.locality, ev.region,
        ev.postcode, ev.country].filter pyTruthy) with
    | error e => rw [hj] at hb; exact absurd hb (by simp)
    | ok loc =>
      rw [hj] at hb
      cases hu : ev.url with
      | str u =>
        rw [hu] at hb
        simp only [Pure.pure, Except.pure, Except.ok.injEq] at hb
        subst hb
        rw [linesOf_joinLines _ (by simp)]
        simp only [pyStrOpt]
        constructor
        · rw [List.mem_flatMap]
          refine ⟨"DTSTART:" ++ st, by simp, ?_⟩
          rw [noNl_linesOf]
          · simp
          · intro hmem
            rw [show ("DTSTART:" ++ st).toList = "DTSTART:".toList ++ st.toList
                from String.data_append _ _] at hmem
            rcases List.mem_append.mp hmem with hmem | hmem
            · exact absurd hmem (by decide)
            · exact absurd hmem (to_ics_no_newline hstart)
        · rw [List.mem_flatMap]
          exact ⟨"DTEND:None", by simp, by decide⟩
      | null => rw [hu] at hb; exact absurd hb (by simp)
      | bool bv => rw [hu] at hb; exact absurd hb (by simp)
      | num n => rw [hu] at hb; exact absurd hb (by simp)
      | arr l => rw [hu] at hb; exact absurd hb (by simp)
      | obj f => rw [hu] at hb; exact absurd hb (by simp)

/-- C6 witness: the amended statement at the concrete record `ev6`. -/
theorem c6_dtend_is_literal_none_witness :
    ("DTSTART:" ++ "20250301T000000Z") ∈ linesOf c6block ∧
    "DTEND:None" ∈ linesOf c6block :=
  c6_dtend_is_literal_none ev6 "20250101T000000Z" "20250301T000000Z" c6block
    rfl (by rfl) (by rfl)


/-! ### Sanitiser algebra -/

theorem collapseWsL_cons_cons (c1 c2 : Char) (rest : List Char) :
    collapseWsL (c1 :: c2 :: rest) =
      if pyIsSpace c1 ∧ pyIsSpace c2 then collapseWsL (c2 :: rest)
      else (if pyIsSpace c1 then ' ' else c1) :: collapseWsL (c2 :: rest) := rfl

theorem collapsedB_cons_cons (c1 c2 : Char) (rest : List Char) :
    collapsedB (c1 :: c2 :: rest) =
      ((!pyIsSpace c1 || ((c1 == ' ') && !pyIsSpace c2)) &&
        collapsedB (c2 :: rest)) := rfl

theorem dropTrailWs_cons (c : Char) (rest : List Char) :
    dropTrailWs (c :: rest) =
      if (dropTrailWs rest).isEmpty ∧ pyIsSpace c then []
      else c :: dropTrailWs rest := rfl

theorem unescapeGo_no_amp (fuel : Nat) (l : List Char) (h : '&' ∉ l) :
    unescapeGo fuel l = l := by
  induction fuel generalizing l with
  | zero => rfl
  | succ fuel ih =>
    cases l with
    | nil => rfl
    | cons c rest =>
      simp only [List.mem_cons, not_or] at h
      have hc : ¬ c = '&' := fun he => h.1 he.symm
      simp [unescapeGo, hc, ih rest h.2]

theorem stripTagsGo_no_lt (fuel : Nat) (l : List Char) (h : '<' ∉ l) :
    stripTagsGo fuel l = l := by
  induction fuel generalizing l with
  | zero => rfl
  | succ fuel ih =>
    cases l with
    | nil => rfl
    | cons c rest =>
      simp only [List.mem_cons, not_or] at h
      have hc : ¬ c = '<' := fun he => h.1 he.symm
      simp [stripTagsGo, hc, ih rest h.2]

theorem collapseWsL_cons_not_space {c : Char} (l : List Char)
    (h : ¬ pyIsSpace c = true) : collapseWsL (c :: l) = c :: collapseWsL l := by
  cases l with
  | nil => simp [collapseWsL, h]
  | cons c2 rest =>
    rw [collapseWsL_cons_cons, if_neg (fun hh => h hh.1), if_neg h]

theorem collapsedB_collapseWsL (l : List Char) :
    collapsedB (collapseWsL l) = true := by
  induction l using collapseWsL.induct with
  | case1 => rfl
  | case2 c hc => simp [collapseWsL, hc, collapsedB]
  | case3 c hc => simp [collapseWsL, hc, collapsedB]
  | case4 c1 c2 rest hb ih =>
    rw [collapseWsL_cons_cons, if_pos hb]
    exact ih
  | case5 c1 c2 rest hb ih =>
    rw [collapseWsL_cons_cons, if_neg hb]
    by_cases h1 : pyIsSpace c1 = true
    · have h2 : ¬ pyIsSpace c2 = true := fun hh => hb ⟨h1, hh⟩
      rw [collapseWsL_cons_not_space rest h2] at ih ⊢
      rw [if_pos h1, collapsedB_cons_cons]
      simp only [Bool.and_eq_true]
      refine ⟨?_, ih⟩
      have hsp2 : pyIsSpace c2 = false := by
        cases hx : pyIsSpace c2
        · rfl
        · exact absurd hx h2
      simp [show pyIsSpace ' ' = true from by decide, hsp2]
    · rw [if_neg h1]
      cases hrec : collapseWsL (c2 :: rest) with
      | nil => simp [collapsedB, h1]
      | cons w ws =>
        rw [hrec] at ih
        rw [collapsedB_cons_cons]
        simp [h1, ih]

theorem collapseWsL_of_collapsedB (l : List Char) (h : collapsedB l = true) :
    collapseWsL l = l := by
  induction l using collapseWsL.induct with
  | case1 => rfl
  | case2 c hc =>
    simp only [collapsedB, hc, Bool.not_true, Bool.false_or, beq_iff_eq] at h
    simp [collapseWsL, hc, h]
  | case3 c hc => simp [collapseWsL, hc]
  | case4 c1 c2 rest hb ih =>
    obtain ⟨hb1, hb2⟩ := hb
    rw [collapsedB_cons_cons, hb1, hb2] at h
    simp at h
  | case5 c1 c2 rest hb ih =>
    rw [collapsedB_cons_cons, Bool.and_eq_true] at h
    rw [collapseWsL_cons_cons, if_neg hb, ih h.2]
    by_cases h1 : pyIsSpace c1 = true
    · have h1c := h.1
      rw [h1] at h1c
      simp only [Bool.not_true, Bool.false_or, Bool.and_eq_true, beq_iff_eq]
        at h1c
      rw [if_pos h1, h1c.1]
    · rw [if_neg h1]

theorem collapsedB_tail {c : Char} {l : List Char}
    (h : collapsedB (c :: l) = true) : collapsedB l = true := by
  cases l with
  | nil => rfl
  | cons c2 rest =>
    rw [collapsedB_cons_cons, Bool.and_eq_true] at h
    exact h.2

theorem collapsedB_head_cond {c : Char} {rest : List Char}
    (h : collapsedB (c :: rest) = true) :
    (!pyIsSpace c || (c == ' ')) = true := by
  cases rest with
  | nil => simpa [collapsedB] using h
  | cons c2 r =>
    rw [collapsedB_cons_cons, Bool.and_eq_true] at h
    have h1 := h.1
    cases hsp : pyIsSpace c with
    | false => simp
    | true =>
      rw [hsp] at h1
      simp only [Bool.not_true, Bool.false_or, Bool.and_eq_true] at h1
      simp [h1.1]

theorem collapsedB_dropWhile (l : List Char) (h : collapsedB l = true) :
    collapsedB (l.dropWhile pyIsSpace) = true := by
  induction l with
  | nil => rfl
  | cons c rest ih =>
    rw [List.dropWhile_cons]
    by_cases hc : pyIsSpace c = true
    · simp only [hc, if_pos]
      exact ih (collapsedB_tail h)
    · simp only [hc]
      simpa using h

theorem dropTrailWs_head {l : List Char} (h : dropTrailWs l ≠ []) :
    (dropTrailWs l).head? = l.head? := by
  cases l with
  | nil => rfl
  | cons c rest =>
    by_cases hcond : (dropTrailWs rest).isEmpty = true ∧ pyIsSpace c = true
    · rw [dropTrailWs_cons, if_pos hcond] at h
      exact absurd rfl h
    · rw [dropTrailWs_cons, if_neg hcond]
      rfl

theorem collapsedB_dropTrailWs (l : List Char) (h : collapsedB l = true) :
    collapsedB (dropTrailWs l) = true := by
  induction l with
  | nil => rfl
  | cons c rest ih =>
    rw [dropTrailWs_cons]
    by_cases hcond : (dropTrailWs rest).isEmpty = true ∧ pyIsSpace c = true
    · rw [if_pos hcond]
      rfl
    · rw [if_neg hcond]
      have hrest := ih (collapsedB_tail h)
      cases hr : dropTrailWs rest with
      | nil =>
        simpa [collapsedB] using collapsedB_head_cond h
      | cons w ws =>
        cases rest with
        | nil => simp [dropTrailWs] at hr
        | cons c2 rest2 =>
          have hhead : (dropTrailWs (c2 :: rest2)).head? = some c2 :=
            dropTrailWs_head (by rw [hr]; simp)
          rw [hr] at hhead hrest
          simp only [List.head?_cons, Option.some.injEq] at hhead
          subst hhead
          rw [collapsedB_cons_cons, Bool.and_eq_true] at h ⊢
          exact ⟨h.1, hrest⟩

theorem dropTrailWs_idem (l : List Char) :
    dropTrailWs (dropTrailWs l) = dropTrailWs l := by
  induction l with
  | nil => rfl
  | cons c rest ih =>
    by_cases hcond : (dropTrailWs rest).isEmpty = true ∧ pyIsSpace c = true
    · rw [dropTrailWs_cons, if_pos hcond]
      rfl
    · rw [dropTrailWs_cons, if_neg hcond, dropTrailWs_cons, ih, if_neg hcond]

theorem dropWhile_head_not_space (l : List Char) (c : Char) (r : List Char)
    (h : l.dropWhile pyIsSpace = c :: r) : pyIsSpace c = false := by
  induction l with
  | nil => simp at h
  | cons x xs ih =>
    rw [List.dropWhile_cons] at h
    by_cases hx : pyIsSpace x = true
    · rw [if_pos hx] at h
      exact ih h
    · rw [if_neg hx] at h
      cases h
      simpa using hx

theorem stripWs_collapse_idem (u : List Char) :
    stripWs (collapseWsL (stripWs (collapseWsL u))) = stripWs (collapseWsL u) := by
  have hcol : collapsedB (collapseWsL u) = true := collapsedB_collapseWsL u
  have hcolw : collapsedB ((collapseWsL u).dropWhile pyIsSpace) = true :=
    collapsedB_dropWhile _ hcol
  have hcolt : collapsedB (stripWs (collapseWsL u)) = true :=
    collapsedB_dropTrailWs _ hcolw
  rw [collapseWsL_of_collapsedB _ hcolt]
  have hdw : (stripWs (collapseWsL u)).dropWhile pyIsSpace =
      stripWs (collapseWsL u) := by
    cases ht : stripWs (collapseWsL u) with
    | nil => rfl
    | cons c r =>
      have hhead : (stripWs (collapseWsL u)).head? =
          ((collapseWsL u).dropWhile pyIsSpace).head? :=
        dropTrailWs_head (by rw [show dropTrailWs ((collapseWsL u).dropWhile pyIsSpace) = stripWs (collapseWsL u) from rfl, ht]; simp)
      rw [ht] at hhead
      cases hwshape : (collapseWsL u).dropWhile pyIsSpace with
      | nil =>
        rw [hwshape] at hhead
        simp at hhead
      | cons cw rw2 =>
        rw [hwshape] at hhead
        simp only [List.head?_cons, Option.some.injEq] at hhead
        subst hhead
        have hcw : pyIsSpace c = false :=
          dropWhile_head_not_space (collapseWsL u) c rw2 hwshape
        rw [List.dropWhile_cons, if_neg (by simp [hcw])]
  show dropTrailWs ((stripWs (collapseWsL u)).dropWhile pyIsSpace) = _
  rw [hdw]
  show dropTrailWs (dropTrailWs ((collapseWsL u).dropWhile pyIsSpace)) = _
  rw [dropTrailWs_idem]
  rfl


theorem sanitizeStr_idem (s : String)
    (hamp : '&' ∉ (sanitizeStr s).toList)
    (hlt : '<' ∉ (sanitizeStr s).toList) :
    sanitizeStr (sanitizeStr s) = sanitizeStr s := by
  have e1 : unescapeL ((sanitizeStr s).toList) = (sanitizeStr s).toList :=
    unescapeGo_no_amp _ _ hamp
  have e2 : stripTagsL ((sanitizeStr s).toList) = (sanitizeStr s).toList :=
    stripTagsGo_no_lt _ _ hlt
  show (⟨stripWs (collapseWsL (stripTagsL (unescapeL
    ((sanitizeStr s).toList))))⟩ : String) = sanitizeStr s
  rw [e1, e2]
  show (⟨stripWs (collapseWsL (stripWs (collapseWsL (stripTagsL (unescapeL
    s.toList)))))⟩ : String) = sanitizeStr s
  rw [stripWs_collapse_idem]
  rfl

/-- C4 counterexample: the sanitiser is not idempotent — a doubly-escaped
ampersand decodes one step per pass (`&amp;amp;` to `&amp;` to `&`). -/
theorem c4_counterexample :
    clean_description (.str "&amp;amp;") = .ok "&amp;" ∧
    clean_description (.str "&amp;") = .ok "&" ∧
    sanitizeStr (sanitizeStr "&amp;amp;") ≠ sanitizeStr "&amp;amp;" :=
  ⟨rfl, rfl, by decide⟩

/-- C4 (amended): `clean_description` is idempotent on every input whose
sanitised output contains neither an ampersand nor a less-than sign —
entity decoding (respectively tag stripping) can reintroduce work for the
next pass only through those two characters, and whitespace
normalisation is idempotent outright. -/
theorem c4_idempotent_on_clean (s t : String)
    (h : clean_description (.str s) = .ok t)
    (hamp : '&' ∉ t.toList) (hlt : '<' ∉ t.toList) :
    clean_description (.str t) = .ok t := by
  unfold clean_description at h ⊢
  simp only [pyTruthy] at h ⊢
  by_cases hse : s.isEmpty = true
  · rw [if_pos (by simp [hse])] at h
    have ht : t = "" := by
      injection h with h2
      exact h2.symm
    subst ht
    rw [if_pos (by decide)]
  · rw [if_neg (by simp [hse])] at h
    have ht : t = sanitizeStr s := by
      injection h with h2
      exact h2.symm
    subst ht
    by_cases hte : (sanitizeStr s).isEmpty = true
    · rw [if_pos (by simp [hte])]
      rw [String.isEmpty_iff] at hte
      rw [hte]
    · rw [if_neg (by simp [hte])]
      exact congrArg Except.ok (sanitizeStr_idem s hamp hlt)

/-- C4 witness: the amended statement at a concrete markup-laden input. -/
theorem c4_idempotent_on_clean_witness :
    clean_description (.str "hello world") = .ok "hello world" :=
  c4_idempotent_on_clean " hello <b>world</b> " "hello world" rfl
    (by decide) (by decide)


/-! ### Deduplication and the per-link loop -/

theorem mem_addLinks (ls : List String) : ∀ (s : List String) (x : String),
    x ∈ addLinks s ls ↔ x ∈ s ∨ x ∈ ls := by
  induction ls with
  | nil => intro s x; simp [addLinks]
  | cons h t ih =>
    intro s x
    show x ∈ addLinks (if h ∈ s then s else s ++ [h]) t ↔ _
    rw [ih]
    by_cases hh : h ∈ s
    · rw [if_pos hh]
      constructor
      · rintro (hx | hx)
        · exact Or.inl hx
        · exact Or.inr (by simp [hx])
      · rintro (hx | hx)
        · exact Or.inl hx
        · rcases List.mem_cons.mp hx with he | hx
          · exact Or.inl (he ▸ hh)
          · exact Or.inr hx
    · rw [if_neg hh]
      constructor
      · rintro (hx | hx)
        · rcases List.mem_append.mp hx with hx | hx
          · exact Or.inl hx
          · exact Or.inr (by simpa using Or.inl (List.mem_singleton.mp hx))
        · exact Or.inr (by simp [hx])
      · rintro (hx | hx)
        · exact Or.inl (List.mem_append.mpr (Or.inl hx))
        · rcases List.mem_cons.mp hx with he | hx
          · exact Or.inl (List.mem_append.mpr (Or.inr (by simp [he])))
          · exact Or.inr hx

theorem nodup_addLinks (ls : List String) : ∀ (s : List String),
    s.Nodup → (addLinks s ls).Nodup := by
  induction ls with
  | nil => intro s hs; exact hs
  | cons h t ih =>
    intro s hs
    show (addLinks (if h ∈ s then s else s ++ [h]) t).Nodup
    by_cases hh : h ∈ s
    · rw [if_pos hh]; exact ih s hs
    · rw [if_neg hh]
      refine ih _ ?_
      rw [List.nodup_append]
      exact ⟨hs, List.nodup_singleton h, by
        intro a ha hb
        rw [List.mem_singleton] at hb
        exact hh (hb ▸ ha)⟩

theorem nodup_all_links (links1 links2 : List String) :
    (all_links links1 links2).Nodup :=
  nodup_addLinks links2 _ (nodup_addLinks links1 [] List.nodup_nil)

theorem processLinks_ok (pages : String → List (Option Json)) (now : String) :
    ∀ (L : List String) (blocks : List String),
    processLinks pages now L = .ok blocks →
    blocks = L.flatMap (linkContribution pages now) := by
  intro L
  induction L with
  | nil =>
    intro blocks h
    simp only [processLinks] at h
    injection h with h2
    simp [h2.symm]
  | cons u rest ih =>
    intro blocks h
    simp only [processLinks, Except.bind, Bind.bind] at h
    cases hl : linkBlock pages now u with
    | error e => rw [hl] at h; exact absurd h (by simp)
    | ok first =>
      rw [hl] at h
      cases first with
      | none =>
        simp only [List.flatMap_cons, linkContribution, hl, List.nil_append]
        exact ih blocks h
      | some b =>
        cases hr : processLinks pages now rest with
        | error e => rw [hr] at h; exact absurd h (by simp)
        | ok bs =>
          rw [hr] at h
          simp only [Pure.pure, Except.pure, Except.ok.injEq] at h
          subst h
          simp only [List.flatMap_cons, linkContribution, hl,
            List.singleton_append]
          rw [ih bs hr]

theorem filter_contribution_zero (pages : String → List (Option Json))
    (now url : String) (p : String → Bool) :
    ∀ (L : List String),
    (∀ v ∈ L, v ≠ url → ∀ bv, linkBlock pages now v = .ok (some bv) →
      p bv = false) →
    url ∉ L →
    ((L.flatMap (linkContribution pages now)).filter p).length = 0 := by
  intro L
  induction L with
  | nil => intro hp h; rfl
  | cons v rest ih =>
    intro hp h
    simp only [List.mem_cons, not_or] at h
    rw [List.flatMap_cons, List.filter_append, List.length_append]
    rw [ih (fun w hw => hp w (by simp [hw])) h.2]
    have hz : ((linkContribution pages now v).filter p).length = 0 := by
      unfold linkContribution
      cases hl : linkBlock pages now v with
      | error e => rfl
      | ok first =>
        cases first with
        | none => rfl
        | some bv =>
          simp [List.filter_cons,
            hp v (by simp) (fun he => h.1 he.symm) bv hl]
    omega

theorem filter_contribution_one (pages : String → List (Option Json))
    (now url b : String) (p : String → Bool)
    (hurl : linkBlock pages now url = .ok (some b)) (hpb : p b = true) :
    ∀ (L : List String),
    (∀ v ∈ L, v ≠ url → ∀ bv, linkBlock pages now v = .ok (some bv) →
      p bv = false) →
    L.count url = 1 →
    ((L.flatMap (linkContribution pages now)).filter p).length = 1 := by
  intro L
  induction L with
  | nil => intro hp h; simp at h
  | cons v rest ih =>
    intro hp h
    rw [List.flatMap_cons, List.filter_append, List.length_append]
    by_cases hv : v = url
    · subst hv
      have hz : rest.count v = 0 := by
        rw [List.count_cons] at h
        simp at h
        omega
      have hnotin : v ∉ rest := List.count_eq_zero.mp hz
      rw [filter_contribution_zero pages now v p rest
        (fun w hw => hp w (by simp [hw])) hnotin]
      unfold linkContribution
      rw [hurl]
      simp [List.filter_cons, hpb]
    · have hc : rest.count url = 1 := by
        rw [List.count_cons] at h
        simp [show ¬ (v == url) = true from by simp [hv]] at h
        omega
      rw [ih (fun w hw => hp w (by simp [hw])) hc]
      have hz : ((linkContribution pages now v).filter p).length = 0 := by
        unfold linkContribution
        cases hl : linkBlock pages now v with
        | error e => rfl
        | ok first =>
          cases first with
          | none => rfl
          | some bv => simp [List.filter_cons, hp v (by simp) hv bv hl]
      omega

theorem hexChar_ne_nl (k : Nat) : ¬ hexChar (k % 16) = '\n' := by
  have hk : k % 16 < 16 := Nat.mod_lt _ (by omega)
  generalize hkk : k % 16 = j at hk
  interval_cases j <;> decide

theorem make_uid_no_newline (u : String) : '\n' ∉ (make_uid u).toList := by
  intro hmem
  rw [show (make_uid u).toList =
      (md5Digest (utf8Encode u)).flatMap byteHex ++ "@brisbanekids".toList
    from String.data_append _ _] at hmem
  rcases List.mem_append.mp hmem with hmem | hmem
  · rcases List.mem_flatMap.mp hmem with ⟨bb, _, hc⟩
    unfold byteHex at hc
    rcases List.mem_cons.mp hc with he | hc
    · exact hexChar_ne_nl (bb / 16) he.symm
    · rcases List.mem_cons.mp hc with he | hc
      · exact hexChar_ne_nl bb he.symm
      · simp at hc
  · exact absurd hmem (by decide)

theorem build_uid_line (ev : RawEventRecord) (now u b : String)
    (hu : ev.url = .str u) (hb : build_ics_event ev now = .ok b) :
    ("UID:" ++ make_uid u) ∈ linesOf b := by
  unfold build_ics_event at hb
  simp only [Except.bind, Bind.bind] at hb
  cases hs : to_ics_datetime ev.start with
  | error e => rw [hs] at hb; exact absurd hb (by simp)
  | ok start =>
    rw [hs] at hb
    cases he : to_ics_datetime ev.end_ with
    | error e => rw [he] at hb; exact absurd hb (by simp)
    | ok end_ =>
      rw [he] at hb
      cases hd : clean_description ev.description with
      | error e => rw [hd] at hb; exact absurd hb (by simp)
      | ok desc =>
        rw [hd] at hb
        cases hj : pyJoin ", " ([ev.venue, ev.street, ev.locality, ev.region,
            ev.postcode, ev.country].filter pyTruthy) with
        | error e => rw [hj] at hb; exact absurd hb (by simp)
        | ok loc =>
          rw [hj, hu] at hb
          simp only [Pure.pure, Except.pure, Except.ok.injEq] at hb
          subst hb
          rw [linesOf_joinLines _ (by simp)]
          rw [List.mem_flatMap]
          refine ⟨"UID:" ++ make_uid u, by simp, ?_⟩
          rw [noNl_linesOf]
          · simp
          · intro hmem
            rw [show ("UID:" ++ make_uid u).toList =
                "UID:".toList ++ (make_uid u).toList
              from String.data_append _ _] at hmem
            rcases List.mem_append.mp hmem with hmem | hmem
            · exact absurd hmem (by decide)
            · exact absurd hmem (make_uid_no_newline u)

/-- C7: a URL collected from both monthly listings is deduplicated to a
single processed link, its detail page yields one VEVENT block whose UID
line derives from that URL, and — as long as no other link produces a
block carrying that same UID line — the final block collection contains
exactly one block with that UID. -/
theorem c7_dedup_single_vevent (links1 links2 : List String)
    (pages : String → List (Option Json)) (now url : String)
    (ev : RawEventRecord) (b : String) (blocks : List String)
    (h1 : url ∈ links1) (h2 : url ∈ links2)
    (hex2 : extract_event_details (pages url) = .ok (some ev))
    (hevurl : ev.url = .str url)
    (hb : build_ics_event ev now = .ok b)
    (hrun : processLinks pages now (all_links links1 links2) = .ok blocks)
    (hno : ∀ v ∈ all_links links1 links2, v ≠ url →
      ∀ bv, linkBlock pages now v = .ok (some bv) →
        ("UID:" ++ make_uid url) ∉ linesOf bv) :
    (all_links links1 links2).count url = 1 ∧
    ("UID:" ++ make_uid url) ∈ linesOf b ∧
    (blocks.filter (fun blk =>
      decide (("UID:" ++ make_uid url) ∈ linesOf blk))).length = 1 := by
  have hmem : url ∈ all_links links1 links2 := by
    rw [show all_links links1 links2 = addLinks (addLinks [] links1) links2
      from rfl, mem_addLinks, mem_addLinks]
    exact Or.inr h2
  have hcount : (all_links links1 links2).count url = 1 :=
    List.count_eq_one_of_mem (nodup_all_links links1 links2) hmem
  have hurl : linkBlock pages now url = .ok (some b) := by
    unfold linkBlock
    rw [hex2]
    simp only [Except.bind, Bind.bind]
    rw [hb]
    rfl
  have huid : ("UID:" ++ make_uid url) ∈ linesOf b :=
    build_uid_line ev now url b hevurl hb
  refine ⟨hcount, huid, ?_⟩
  rw [processLinks_ok pages now _ blocks hrun]
  refine filter_contribution_one pages now url b _ hurl (by simp [huid]) _
    ?_ hcount
  intro v hvmem hv bv hlb
  have := hno v hvmem hv bv hlb
  simpa using this


/-- C7 witness: one shared URL in both monthly link lists yields exactly
one VEVENT block with its UID in the final block collection. -/
theorem c7_dedup_single_vevent_witness :
    (all_links ["https://e/x"] ["https://e/x"]).count "https://e/x" = 1 ∧
    ("UID:" ++ make_uid "https://e/x") ∈ linesOf c7b ∧
    (c7blocks.filter (fun blk =>
      decide (("UID:" ++ make_uid "https://e/x") ∈ linesOf blk))).length = 1 :=
  c7_dedup_single_vevent ["https://e/x"] ["https://e/x"] c7pages
    "20250101T000000Z" "https://e/x" c7record c7b c7blocks
    (by decide) (by decide) rfl rfl rfl rfl
    (by
      intro v hv hne bv hlb
      have hvx : v ∈ ["https://e/x"] := hv
      exact absurd (List.mem_singleton.mp hvx) hne)


/-! ### Calendar arithmetic -/

theorem isLeapYear_iff (y : Nat) :
    isLeapYear y = true ↔ ((y % 4 = 0 ∧ ¬ y % 100 = 0) ∨ y % 400 = 0) := by
  simp [isLeapYear, Bool.or_eq_true, Bool.and_eq_true, beq_iff_eq, bne_iff_ne]

theorem daysInMonth_le (y m : Nat) : daysInMonth y m ≤ 31 := by
  unfold daysInMonth
  split_ifs <;> omega

theorem daysInMonth_pos (y m : Nat) : 1 ≤ daysInMonth y m := by
  unfold daysInMonth
  split_ifs <;> omega

set_option maxHeartbeats 2000000 in
theorem daysBeforeMonth_step (y m : Nat) (h1 : 1 ≤ m) (h2 : m ≤ 11) :
    daysBeforeMonth y (m + 1) = daysBeforeMonth y m + daysInMonth y m := by
  cases hl : isLeapYear y <;>
    · interval_cases m <;>
        simp [daysBeforeMonth, monthDays, daysInMonth, hl]

set_option maxHeartbeats 2000000 in
theorem daysBeforeYear_step (y : Nat) (h : 1 ≤ y) :
    daysBeforeYear (y + 1) =
      daysBeforeYear y + 365 + (if isLeapYear y = true then 1 else 0) := by
  by_cases hl : isLeapYear y = true
  · have ha := (isLeapYear_iff y).mp hl
    rw [if_pos hl]
    unfold daysBeforeYear
    omega
  · have ha : ¬ ((y % 4 = 0 ∧ ¬ y % 100 = 0) ∨ y % 400 = 0) :=
      fun hh => hl ((isLeapYear_iff y).mpr hh)
    rw [if_neg hl]
    unfold daysBeforeYear
    omega

theorem validDate_elim {y m d : Nat} (h : validDate y m d = true) :
    1 ≤ y ∧ y ≤ 9999 ∧ 1 ≤ m ∧ m ≤ 12 ∧ 1 ≤ d ∧ d ≤ daysInMonth y m := by
  simp only [validDate, Bool.and_eq_true, decide_eq_true_eq] at h
  omega

theorem toOrdinal_nextDay (y m d : Nat) (h : validDate y m d = true) :
    toOrdinal (nextDay y m d).1 (nextDay y m d).2.1 (nextDay y m d).2.2 =
      toOrdinal y m d + 1 := by
  have hv := validDate_elim h
  unfold nextDay
  by_cases h1 : d < daysInMonth y m
  · rw [if_pos h1]
    show daysBeforeYear y + daysBeforeMonth y m + (d + 1) = _
    unfold toOrdinal
    omega
  · rw [if_neg h1]
    have hd : d = daysInMonth y m := by omega
    by_cases h2 : m < 12
    · rw [if_pos h2]
      show daysBeforeYear y + daysBeforeMonth y (m + 1) + 1 = _
      rw [daysBeforeMonth_step y m (by omega) (by omega)]
      unfold toOrdinal
      omega
    · have hm : m = 12 := by omega
      subst hm
      rw [if_neg h2]
      have hd31 : d = 31 := by
        have : daysInMonth y 12 = 31 := rfl
        omega
      show daysBeforeYear (y + 1) + daysBeforeMonth (y + 1) 1 + 1 = _
      rw [daysBeforeYear_step y (by omega)]
      have hb1 : daysBeforeMonth (y + 1) 1 = 0 := by
        simp [daysBeforeMonth, monthDays]
      have hb12 : daysBeforeMonth y 12 =
          334 + (if isLeapYear y = true then 1 else 0) := by
        cases hl : isLeapYear y <;> simp [daysBeforeMonth, monthDays, hl]
      unfold toOrdinal
      rw [hb1, hb12]
      split_ifs <;> omega

theorem toOrdinal_prevDay (y m d : Nat) (h : validDate y m d = true)
    (hne : ¬ (y = 1 ∧ m = 1 ∧ d = 1)) :
    toOrdinal (prevDay y m d).1 (prevDay y m d).2.1 (prevDay y m d).2.2 + 1 =
      toOrdinal y m d := by
  have hv := validDate_elim h
  unfold prevDay
  by_cases h1 : 2 ≤ d
  · rw [if_pos h1]
    show daysBeforeYear y + daysBeforeMonth y m + (d - 1) + 1 = _
    unfold toOrdinal
    omega
  · rw [if_neg h1]
    have hd : d = 1 := by omega
    by_cases h2 : 2 ≤ m
    · rw [if_pos h2]
      show daysBeforeYear y + daysBeforeMonth y (m - 1) + daysInMonth y (m - 1) + 1 = _
      have := daysBeforeMonth_step y (m - 1) (by omega) (by omega)
      rw [show m - 1 + 1 = m from by omega] at this
      unfold toOrdinal
      omega
    · rw [if_neg h2]
      have hm : m = 1 := by omega
      have hy : 2 ≤ y := by
        rcases Nat.lt_or_ge y 2 with hy | hy
        · exact absurd ⟨by omega, hm, hd⟩ hne
        · exact hy
      subst hm
      show daysBeforeYear (y - 1) + daysBeforeMonth (y - 1) 12 + 31 + 1 = _
      have hstep := daysBeforeYear_step (y - 1) (by omega)
      rw [show y - 1 + 1 = y from by omega] at hstep
      have hb1 : daysBeforeMonth y 1 = 0 := by
        simp [daysBeforeMonth, monthDays]
      have hb12 : daysBeforeMonth (y - 1) 12 =
          334 + (if isLeapYear (y - 1) = true then 1 else 0) := by
        cases hl : isLeapYear (y - 1) <;> simp [daysBeforeMonth, monthDays, hl]
      unfold toOrdinal
      rw [hb1, hb12, hstep]
      split_ifs <;> omega

theorem nextDay_bounds (y m d : Nat) (h : validDate y m d = true) :
    1 ≤ (nextDay y m d).2.1 ∧ (nextDay y m d).2.1 ≤ 12 ∧
    1 ≤ (nextDay y m d).2.2 ∧ (nextDay y m d).2.2 ≤ 31 ∧
    y ≤ (nextDay y m d).1 ∧ (nextDay y m d).1 ≤ y + 1 ∧
    ((nextDay y m d).1 = y + 1 → m = 12 ∧ d = 31) := by
  have hv := validDate_elim h
  have hle := daysInMonth_le y m
  unfold nextDay
  by_cases h1 : d < daysInMonth y m
  · rw [if_pos h1]
    dsimp only
    have hle2 := daysInMonth_le y m
    refine ⟨by omega, by omega, by omega, by omega, by omega, by omega, by omega⟩
  · rw [if_neg h1]
    by_cases h2 : m < 12
    · rw [if_pos h2]
      dsimp only
      refine ⟨by omega, by omega, by omega, by omega, by omega, by omega, by omega⟩
    · rw [if_neg h2]
      dsimp only
      have hm : m = 12 := by omega
      subst hm
      have hdim : daysInMonth y 12 = 31 := rfl
      refine ⟨by omega, by omega, by omega, by omega, by omega, by omega,
        fun _ => ⟨rfl, by omega⟩⟩

theorem prevDay_bounds (y m d : Nat) (h : validDate y m d = true) :
    1 ≤ (prevDay y m d).2.1 ∧ (prevDay y m d).2.1 ≤ 12 ∧
    (prevDay y m d).2.2 ≤ 31 ∧
    (prevDay y m d).1 ≤ y ∧ y ≤ (prevDay y m d).1 + 1 ∧
    ((prevDay y m d).1 = y - 1 ∧ y = 1 → m = 1 ∧ d = 1) := by
  have hv := validDate_elim h
  have hle := daysInMonth_le y (m - 1)
  unfold prevDay
  by_cases h1 : 2 ≤ d
  · rw [if_pos h1]
    dsimp only
    have hle2 := daysInMonth_le y m
    refine ⟨by omega, by omega, by omega, by omega, by omega, by omega⟩
  · rw [if_neg h1]
    by_cases h2 : 2 ≤ m
    · rw [if_pos h2]
      dsimp only
      refine ⟨by omega, by omega, by omega, by omega, by omega, by omega⟩
    · rw [if_neg h2]
      dsimp only
      refine ⟨by omega, by omega, by omega, by omega, by omega,
        fun _ => ⟨by omega, by omega⟩⟩


theorem validDT_elim {dt : PyDateTime} {off : Int} (h : validDT dt = true)
    (hoff : dt.utcoffset = some off) :
    validDate dt.year dt.month dt.day = true ∧ dt.hour ≤ 23 ∧
    dt.minute ≤ 59 ∧ dt.second ≤ 59 ∧ off.natAbs ≤ 86399 := by
  unfold validDT at h
  rw [hoff] at h
  simp only [Bool.and_eq_true, decide_eq_true_eq] at h
  exact ⟨h.1.1.1.1.1, h.1.1.1.1.2, h.1.1.1.2, h.1.1.2, h.2⟩

set_option maxHeartbeats 2000000 in
theorem astimezoneUtc_total (dt : PyDateTime) (off : Int)
    (hv : validDT dt = true) (hoff : dt.utcoffset = some off)
    (hlo : (toOrdinal 1 1 1 : Int) * 86400 ≤ instantOf dt off)
    (hhi : instantOf dt off ≤ (toOrdinal 9999 12 31 : Int) * 86400 + 86399) :
    ∃ dtU, astimezoneUtc dt = .ok dtU ∧
      dtU.year ≤ 9999 ∧ dtU.month ≤ 99 ∧ dtU.day ≤ 99 ∧ dtU.hour ≤ 99 ∧
      dtU.minute ≤ 99 ∧ dtU.second ≤ 99 ∧ dtU.microsecond = dt.microsecond ∧
      (toOrdinal dtU.year dtU.month dtU.day : Int) * 86400 +
        ((dtU.hour * 3600 + dtU.minute * 60 + dtU.second : Nat) : Int) =
        instantOf dt off := by
  obtain ⟨hvd, hh23, hm59, hs59, hob⟩ := validDT_elim hv hoff
  have hvdE := validDate_elim hvd
  have hdimle := daysInMonth_le dt.year dt.month
  have hoffb : -86399 ≤ off ∧ off ≤ 86399 := by omega
  have hnb := nextDay_bounds dt.year dt.month dt.day hvd
  have hpb := prevDay_bounds dt.year dt.month dt.day hvd
  have hordn := toOrdinal_nextDay dt.year dt.month dt.day hvd
  unfold astimezoneUtc
  rw [hoff]
  dsimp only
  set t : Int := ((dt.hour * 3600 + dt.minute * 60 + dt.second : Nat) : Int) - off
    with ht
  have htb : -86399 ≤ t ∧ t ≤ 172798 := by
    constructor <;> [skip; skip] <;> omega
  have hinst : instantOf dt off =
      (toOrdinal dt.year dt.month dt.day : Int) * 86400 + t := by
    unfold instantOf
    omega
  by_cases hneg : t < 0
  · -- the date moves one day back
    rw [show astimezoneShift dt.year dt.month dt.day t =
        ((prevDay dt.year dt.month dt.day).1,
         (prevDay dt.year dt.month dt.day).2.1,
         (prevDay dt.year dt.month dt.day).2.2, t + 86400) from by
      rw [astimezoneShift, if_pos hneg]]
    have hne111 : ¬ (dt.year = 1 ∧ dt.month = 1 ∧ dt.day = 1) := by
      rintro ⟨hy, hm, hd⟩
      have hone : toOrdinal dt.year dt.month dt.day = 1 := by
        rw [hy, hm, hd]
        decide
      have honeI : (toOrdinal 1 1 1 : Int) = 1 := by decide
      rw [hinst, hone] at hlo
      rw [honeI] at hlo
      omega
    have hordp := toOrdinal_prevDay dt.year dt.month dt.day hvd hne111
    have hguard : ¬ ((prevDay dt.year dt.month dt.day).1 < 1 ∨
        9999 < (prevDay dt.year dt.month dt.day).1) := by
      rintro (hg | hg)
      · have hz : (prevDay dt.year dt.month dt.day).1 = 0 := by omega
        have hy1 : dt.year = 1 := by omega
        have := hpb.2.2.2.2.2 ⟨by omega, hy1⟩
        exact hne111 ⟨hy1, this.1, this.2⟩
      · omega
    rw [if_neg hguard]
    refine ⟨_, rfl, by dsimp only; omega, by dsimp only; omega,
      by dsimp only; omega, ?_, ?_, ?_, rfl, ?_⟩
    · show (t + 86400).toNat / 3600 ≤ 99
      omega
    · show (t + 86400).toNat / 60 % 60 ≤ 99
      omega
    · show (t + 86400).toNat % 60 ≤ 99
      omega
    · show (toOrdinal (prevDay dt.year dt.month dt.day).1
          (prevDay dt.year dt.month dt.day).2.1
          (prevDay dt.year dt.month dt.day).2.2 : Int) * 86400 +
        (((t + 86400).toNat / 3600 * 3600 + (t + 86400).toNat / 60 % 60 * 60 +
          (t + 86400).toNat % 60 : Nat) : Int) = instantOf dt off
      rw [hinst]
      omega
  · by_cases hbig : 86400 ≤ t
    · -- the date moves one day forward
      rw [show astimezoneShift dt.year dt.month dt.day t =
          ((nextDay dt.year dt.month dt.day).1,
           (nextDay dt.year dt.month dt.day).2.1,
           (nextDay dt.year dt.month dt.day).2.2, t - 86400) from by
        rw [astimezoneShift, if_neg hneg, if_pos hbig]]
      have hguard : ¬ ((nextDay dt.year dt.month dt.day).1 < 1 ∨
          9999 < (nextDay dt.year dt.month dt.day).1) := by
        rintro (hg | hg)
        · omega
        · have hup : (nextDay dt.year dt.month dt.day).1 = dt.year + 1 := by
            omega
          have hy9999 : dt.year = 9999 := by omega
          have hmd := hnb.2.2.2.2.2.2 hup
          have hord31 : toOrdinal dt.year dt.month dt.day =
              toOrdinal 9999 12 31 := by
            rw [hy9999, hmd.1, hmd.2]
          rw [hinst, hord31] at hhi
          omega
      rw [if_neg hguard]
      refine ⟨_, rfl, by dsimp only; omega, by dsimp only; omega,
        by dsimp only; omega, ?_, ?_, ?_, rfl, ?_⟩
      · show (t - 86400).toNat / 3600 ≤ 99
        omega
      · show (t - 86400).toNat / 60 % 60 ≤ 99
        omega
      · show (t - 86400).toNat % 60 ≤ 99
        omega
      · show (toOrdinal (nextDay dt.year dt.month dt.day).1
            (nextDay dt.year dt.month dt.day).2.1
            (nextDay dt.year dt.month dt.day).2.2 : Int) * 86400 +
          (((t - 86400).toNat / 3600 * 3600 + (t - 86400).toNat / 60 % 60 * 60 +
            (t - 86400).toNat % 60 : Nat) : Int) = instantOf dt off
        rw [hinst]
        omega
    · -- same date
      rw [show astimezoneShift dt.year dt.month dt.day t =
          (dt.year, dt.month, dt.day, t) from by
        rw [astimezoneShift, if_neg hneg, if_neg hbig]]
      have hguard : ¬ (dt.year < 1 ∨ 9999 < dt.year) := by omega
      rw [if_neg hguard]
      refine ⟨_, rfl, by dsimp only; omega, by dsimp only; omega,
        by dsimp only; omega, ?_, ?_, ?_, rfl, ?_⟩
      · show t.toNat / 3600 ≤ 99
        omega
      · show t.toNat / 60 % 60 ≤ 99
        omega
      · show t.toNat % 60 ≤ 99
        omega
      · show (toOrdinal dt.year dt.month dt.day : Int) * 86400 +
          ((t.toNat / 3600 * 3600 + t.toNat / 60 % 60 * 60 +
            t.toNat % 60 : Nat) : Int) = instantOf dt off
        rw [hinst]
        omega


theorem strftimeICS_toList (dt : PyDateTime) :
    (strftimeICS dt).toList =
      [digitChar (dt.year / 1000 % 10), digitChar (dt.year / 100 % 10),
       digitChar (dt.year / 10 % 10), digitChar (dt.year % 10),
       digitChar (dt.month / 10 % 10), digitChar (dt.month % 10),
       digitChar (dt.day / 10 % 10), digitChar (dt.day % 10), 'T',
       digitChar (dt.hour / 10 % 10), digitChar (dt.hour % 10),
       digitChar (dt.minute / 10 % 10), digitChar (dt.minute % 10),
       digitChar (dt.second / 10 % 10), digitChar (dt.second % 10), 'Z'] := by
  show (strftimeICS dt).data = _
  simp [strftimeICS, pad4, pad2, String.data_append]

theorem digitVal_digitChar (k : Nat) (h : k < 10) :
    digitVal (digitChar k) = k := by
  interval_cases k <;> decide

theorem digitChar_mod10_isDigit (x : Nat) :
    (digitChar (x % 10)).isDigit = true :=
  digitChar_isDigit (Nat.mod_lt _ (by omega))

theorem digitVal_digitChar_mod10 (x : Nat) :
    digitVal (digitChar (x % 10)) = x % 10 :=
  digitVal_digitChar _ (Nat.mod_lt _ (by omega))

theorem matchesIcsShape_strftime (dt : PyDateTime) :
    matchesIcsShape (strftimeICS dt) = true := by
  unfold matchesIcsShape
  rw [strftimeICS_toList]
  simp [digitChar_mod10_isDigit]

theorem parseIcsInstant_strftime (dt : PyDateTime)
    (hy : dt.year ≤ 9999) (hm : dt.month ≤ 99) (hd : dt.day ≤ 99)
    (hh : dt.hour ≤ 99) (hmi : dt.minute ≤ 99) (hs : dt.second ≤ 99) :
    parseIcsInstant (strftimeICS dt) =
      some ((toOrdinal dt.year dt.month dt.day : Int) * 86400 +
        ((dt.hour * 3600 + dt.minute * 60 + dt.second : Nat) : Int)) := by
  unfold parseIcsInstant
  rw [strftimeICS_toList]
  dsimp only
  rw [if_pos (by simp [digitChar_mod10_isDigit])]
  have ey : digitVal (digitChar (dt.year / 1000 % 10)) * 1000 +
      digitVal (digitChar (dt.year / 100 % 10)) * 100 +
      digitVal (digitChar (dt.year / 10 % 10)) * 10 +
      digitVal (digitChar (dt.year % 10)) = dt.year := by
    rw [digitVal_digitChar_mod10, digitVal_digitChar_mod10,
      digitVal_digitChar_mod10, digitVal_digitChar_mod10]
    omega
  have em : digitVal (digitChar (dt.month / 10 % 10)) * 10 +
      digitVal (digitChar (dt.month % 10)) = dt.month := by
    rw [digitVal_digitChar_mod10, digitVal_digitChar_mod10]
    omega
  have ed : digitVal (digitChar (dt.day / 10 % 10)) * 10 +
      digitVal (digitChar (dt.day % 10)) = dt.day := by
    rw [digitVal_digitChar_mod10, digitVal_digitChar_mod10]
    omega
  have eh : digitVal (digitChar (dt.hour / 10 % 10)) * 10 +
      digitVal (digitChar (dt.hour % 10)) = dt.hour := by
    rw [digitVal_digitChar_mod10, digitVal_digitChar_mod10]
    omega
  have emi : digitVal (digitChar (dt.minute / 10 % 10)) * 10 +
      digitVal (digitChar (dt.minute % 10)) = dt.minute := by
    rw [digitVal_digitChar_mod10, digitVal_digitChar_mod10]
    omega
  have es : digitVal (digitChar (dt.second / 10 % 10)) * 10 +
      digitVal (digitChar (dt.second % 10)) = dt.second := by
    rw [digitVal_digitChar_mod10, digitVal_digitChar_mod10]
    omega
  rw [ey, em, ed, eh, emi, es]

theorem fromisoformat_valid {s : String} {dt : PyDateTime}
    (h : fromisoformat s = .ok dt) : validDT dt = true := by
  unfold fromisoformat at h
  cases hp : parseIso s.toList with
  | none => rw [hp] at h; exact absurd h (by simp)
  | some d =>
    rw [hp] at h
    dsimp only at h
    by_cases hv : validDT d = true
    · rw [if_pos hv] at h
      injection h with h2
      exact h2 ▸ hv
    · rw [if_neg hv] at h
      exact absurd h (by simp)

/-- C3 (amended): `to_ics_datetime` maps absent input to absent output
with no default substituted, and for every valid ISO-8601 input with a
timezone offset, *whole seconds* (no fractional part), and a UTC
equivalent inside the representable year range 1-9999, it returns a
string matching `^\d{8}T\d{6}Z$` that denotes the same instant as the
input (round trip via an independent parser).  The two restrictions are
forced by the code: fractional seconds are silently discarded by the
output format, and a UTC conversion that leaves the year range raises
`OverflowError`. -/
theorem c3_to_ics_datetime_amended :
    to_ics_datetime Json.null = .ok none ∧
    ∀ (s : String) (dt : PyDateTime) (off : Int),
      fromisoformat s = .ok dt → dt.utcoffset = some off →
      dt.microsecond = 0 →
      (toOrdinal 1 1 1 : Int) * 86400 ≤ instantOf dt off →
      instantOf dt off ≤ (toOrdinal 9999 12 31 : Int) * 86400 + 86399 →
      ∃ out, to_ics_datetime (.str s) = .ok (some out) ∧
        matchesIcsShape out = true ∧
        parseIcsInstantUs out = some (instantUsOf dt off) := by
  refine ⟨rfl, ?_⟩
  intro s dt off hparse hoff hus hlo hhi
  have hvdt := fromisoformat_valid hparse
  obtain ⟨dtU, hok, hy, hm, hd, hh, hmi, hsec, hmic, hinst⟩ :=
    astimezoneUtc_total dt off hvdt hoff hlo hhi
  have hsne : s.isEmpty = false := by
    cases hq : s.isEmpty
    · rfl
    · rw [String.isEmpty_iff] at hq
      rw [hq] at hparse
      rw [show fromisoformat "" = .error "ValueError" from rfl] at hparse
      exact absurd hparse (by simp)
  refine ⟨strftimeICS dtU, ?_, matchesIcsShape_strftime dtU, ?_⟩
  · unfold to_ics_datetime
    rw [show pyTruthy (.str s) = true from by simp [pyTruthy, hsne]]
    simp only [Bool.not_true, Bool.false_eq_true, if_false, Except.bind,
      Bind.bind]
    rw [hparse]
    dsimp only
    rw [hok]
  · rw [show parseIcsInstantUs (strftimeICS dtU) =
        (parseIcsInstant (strftimeICS dtU)).map (fun x => x * 1000000)
      from rfl]
    rw [parseIcsInstant_strftime dtU hy hm hd hh hmi hsec]
    dsimp only [Option.map]
    rw [hinst]
    unfold instantUsOf
    rw [hus]
    simp

/-- C3 witness: the amended statement at a concrete aware datetime. -/
theorem c3_to_ics_datetime_amended_witness :
    ∃ out,
      to_ics_datetime (.str "2024-01-25T14:00:00+10:00") = .ok (some out) ∧
      matchesIcsShape out = true ∧
      parseIcsInstantUs out =
        some (instantUsOf ⟨2024, 1, 25, 14, 0, 0, 0, some 36000⟩ 36000) :=
  c3_to_ics_datetime_amended.2 "2024-01-25T14:00:00+10:00"
    ⟨2024, 1, 25, 14, 0, 0, 0, some 36000⟩ 36000 rfl rfl rfl
    (by decide) (by decide)

/-- C3 counterexample: a valid ISO-8601 input with an offset and
fractional seconds parses, converts, and formats, but the output denotes
an instant half a second away from the input instant — the format drops
microseconds, so it is not the same instant as the input. -/
theorem c3_counterexample :
    fromisoformat c3str = .ok c3dt ∧
    c3dt.utcoffset = some 36000 ∧
    to_ics_datetime (.str c3str) = .ok (some "20240125T040000Z") ∧
    parseIcsInstantUs "20240125T040000Z" ≠ some (instantUsOf c3dt 36000) :=
  ⟨rfl, rfl, rfl, by decide⟩

end BK
